import Mathlib

/-!
# Verification of the chess rules engine

A shallow embedding of the core of the `chess-game` TypeScript engine:
position representation (0x88 board, piece list, castle-rights map),
the legal-move generator (`list-valid-moves.ts`), move application and
reversion (`perform-move` / `revert-move.ts`), the outcome classifier
(`move-results.ts`), the repetition-hash layer stack (`board.ts`),
SAN rendering and parsing (`move-to-san.ts` / `find-move-by-san.ts`),
`perft` and the `ChessGame` facade.

Machine integers are modelled as `Nat` (all byte/word values stay far
below any overflow boundary; the only bitwise operations used are
`&&&`, `|||`, `>>>`, `<<<` on small non-negative values, which agree
with the JavaScript 32-bit semantics there).  Square arithmetic that
can go negative in JavaScript is carried out in `Int` with an explicit
off-board test.  Fallible operations return `Except`.

Some leaf modules of the repository (`space.ts`, `attack-map.ts`,
`perform-move.ts`, `board-lacks-material.ts`, `game-status.ts`,
`color.ts`, `hash-board.ts`) are not part of the provided sources;
only their callers are.  Definitions for those parts are modelled from
the specification and are marked `Modelled from the spec:` in their
doc comments.  Everything else is translated from the sources.
-/

/-! ## Colors, piece types, spaces (piece bytes)

`color.ts`, `piece-type.ts` and `space.ts`.  `piece-type.ts` is in the
sources; the constants below match it exactly.
-/

def COLOR_WHITE : Nat := 0

def COLOR_BLACK : Nat := 8

def PIECETYPE_PAWN : Nat := 1

def PIECETYPE_BISHOP : Nat := 2

def PIECETYPE_KNIGHT : Nat := 3

def PIECETYPE_ROOK : Nat := 4

def PIECETYPE_QUEEN : Nat := 5

def PIECETYPE_KING : Nat := 6

def SPACE_EMPTY : Nat := 0

/-- Modelled from the spec: `space.ts` is not under `src/`.  §3.2: a
space byte has piece type in the low 3 bits, color in bit `0x08`
(0 = white, 8 = black), and the has-moved flag in bit `0x10`. -/
def spaceGetType (sp : Nat) : Nat := sp &&& 7

/-- Modelled from the spec: §3.2, color bit `0x08`; the value returned
is the color constant itself (0 or 8), so that `enemy = 8 - color`. -/
def spaceGetColor (sp : Nat) : Nat := sp &&& 8

/-- Modelled from the spec: §3.2, the has-moved flag is bit `0x10`. -/
def spaceHasMoved (sp : Nat) : Bool := sp &&& 16 ≠ 0

/-- Modelled from the spec: §3.2, building a piece byte from its
parts (used by `build-standar-board.ts` and promotion handling). -/
def encodePieceSpace (t color : Nat) (moved : Bool) : Nat :=
  t ||| color ||| (if moved then 16 else 0)

/-! ## Castle-rights map (`castle-map.ts`, in the sources) -/

/-- `buildCastleMap` from `castle-map.ts`: four nibbles
`d c b a` (LSB first): white kingside file, white queenside file,
black kingside file, black queenside file. -/
def buildCastleMap (whiteQRook whiteKRook blackQRook blackKRook : Nat) : Nat :=
  (whiteKRook &&& 0xf) ||| ((whiteQRook &&& 0xf) <<< 4) |||
    ((blackKRook &&& 0xf) <<< 8) ||| ((blackQRook &&& 0xf) <<< 12)

/-- `castleMapKingMoved` from `castle-map.ts`: clears both nibbles for
the given color (sets the `0x8` "ineligible" bit in each). -/
def castleMapKingMoved (map color : Nat) : Nat :=
  if color = COLOR_WHITE then (map &&& 0xff00) ||| 0x0088
  else (map &&& 0x00ff) ||| 0x8800

/-- `castleMapRookMoved` from `castle-map.ts`: if a tracked rook file
matches the moved square's file on the matching rank half, clear that
single nibble.  (`map & ~(0xf << base)` is written with a 16-bit mask:
the map always fits in 16 bits.) -/
def castleMapRookMoved (map coord : Nat) : Nat :=
  let kbase := if coord < 0x40 then 0 else 8
  let qbase := kbase + 4
  let file := coord &&& 0x0f
  if (map >>> kbase) &&& 0xf = file then
    ((map &&& (0xffff ^^^ (0xf <<< kbase))) ||| (0x8 <<< kbase))
  else if (map >>> qbase) &&& 0xf = file then
    ((map &&& (0xffff ^^^ (0xf <<< qbase))) ||| (0x8 <<< qbase))
  else map

/-- `castleMapGetFile` from `castle-map.ts`. -/
def castleMapGetFile (map color : Nat) (kingSide : Bool) : Nat :=
  let offset := color + (if kingSide then 0 else 4)
  (map >>> offset) &&& 0xf

/-! ## Game status (`game-status.ts`)

Modelled from the spec: §3.8 gives the exact ordering
`ACTIVE=0 < CHECKMATE < RESIGNED < DRAW < DRAW_STALEMATE <
DRAW_REPETITION < DRAW_FIFTYMOVES < DRAW_NOMATERIAL`.
-/

def GAMESTATUS_ACTIVE : Nat := 0

def GAMESTATUS_CHECKMATE : Nat := 1

def GAMESTATUS_RESIGNED : Nat := 2

def GAMESTATUS_DRAW : Nat := 3

def GAMESTATUS_DRAW_STALEMATE : Nat := 4

def GAMESTATUS_DRAW_REPETITION : Nat := 5

def GAMESTATUS_DRAW_FIFTYMOVES : Nat := 6

def GAMESTATUS_DRAW_NOMATERIAL : Nat := 7

/-! ## Moves and prior state (`move.ts`, `board.ts`, in the sources) -/

/-- `PriorState` from `board.ts`: the metadata snapshot a `Move`
carries for reversion. -/
structure PriorState where
  clock : Nat
  moveNum : Nat
  ep : Nat
  status : Nat
  castles : Nat
deriving DecidableEq, Repr

/-- `Move` from `move.ts`.  Coordinate `0` doubles as the "absent"
sentinel for the capture/castle coordinate slots and `markEnPassant`. -/
structure Move where
  what : Nat
  from_ : Nat
  to_ : Nat
  capture : Nat
  captureCoord : Nat
  castleRook : Nat
  castleRookFrom : Nat
  castleRookTo : Nat
  promote : Nat
  markEnPassant : Nat
  prior : PriorState
deriving DecidableEq, Repr

/-- `createFullMove` from `move.ts`. -/
def createFullMove (what from_ to_ capture captureCoord castleRook castleRookFrom
    castleRookTo promote markEnPassant : Nat) (prior : PriorState) : Move :=
  ⟨what, from_, to_, capture, captureCoord, castleRook, castleRookFrom,
    castleRookTo, promote, markEnPassant, prior⟩

/-- `createSimpleMove` from `move.ts`. -/
def createSimpleMove (what from_ to_ : Nat) (prior : PriorState) : Move :=
  createFullMove what from_ to_ 0 0 0 0 0 0 0 prior

/-- `createSimpleCapture` from `move.ts`. -/
def createSimpleCapture (what from_ to_ capture captureCoord : Nat)
    (prior : PriorState) : Move :=
  createFullMove what from_ to_ capture captureCoord 0 0 0 0 0 prior

/-- `createCastle` from `move.ts`. -/
def createCastle (what from_ to_ castleRook castleRookFrom castleRookTo : Nat)
    (prior : PriorState) : Move :=
  createFullMove what from_ to_ 0 0 castleRook castleRookFrom castleRookTo 0 0 prior

/-- `moveToPromotion` from `move.ts`. -/
def moveToPromotion (m : Move) (promote : Nat) : Move :=
  { m with promote := promote }

/-! ## Position (one `Layer` of `board.ts`, minus `seen`/`moveCache`)

The repetition-hash `seen` maps live across the whole layer stack
(§3.6) and are modelled separately below (`HashStack`); the per-color
`moveCache` is modelled separately as well (`MoveCacheState`).  The
attack map `attacks[256]` is maintained incrementally by
`attack-map.ts`, which is not under `src/`; the spec (§4.1, §8
invariant 2) requires it to stay exactly equal to the naive recompute
from the occupancy, so it is modelled as the exact recompute
(`attackersCount` below) rather than as stored state.
-/

structure Position where
  board : List Nat
  pieceList : List Nat
  clock : Nat
  moveNum : Nat
  ep : Nat
  status : Nat
  turn : Nat
  castles : Nat
deriving DecidableEq, Repr

def Position.get (p : Position) (idx : Nat) : Nat := p.board.getD idx 0

/-- The swap-with-last-and-pop removal `board.ts` performs on
`pieceList` inside `set()` when a piece is removed.  (When the index
is absent—unreachable while the piece-list invariant holds—the
JavaScript writes to property `-1` and pops, i.e. drops the last
element; modelled the same way.) -/
def pieceListRemove (l : List Nat) (idx : Nat) : List Nat :=
  match l.findIdx? (fun c => c == idx) with
  | none => l.dropLast
  | some i =>
    if i = l.length - 1 then l.dropLast
    else (l.set i (l.getD (l.length - 1) 0)).dropLast

/-- `Board.set` from `board.ts` (the board-array and piece-list part;
the incremental attack-map calls keep the attack map equal to the
exact recompute, which is how the attack map is modelled here).  The
JavaScript updates the piece list when `(prior === EMPTY) !==
(space === EMPTY)`: a push when the square was empty, the swap-remove
otherwise. -/
def Position.set (p : Position) (idx sp : Nat) : Position :=
  let prior := p.board.getD idx 0
  let pl :=
    if prior = 0 ∧ sp ≠ 0 then p.pieceList ++ [idx]
    else if prior ≠ 0 ∧ sp = 0 then pieceListRemove p.pieceList idx
    else p.pieceList
  { p with board := p.board.set idx sp, pieceList := pl }

/-- `Board.getPriorState` from `board.ts`. -/
def Position.getPriorState (p : Position) : PriorState :=
  ⟨p.clock, p.moveNum, p.ep, p.status, p.castles⟩

/-! ## The attack map, modelled as the exact recompute -/

/-- The JavaScript off-board test `(i & 0x88) !== 0` applied to a
signed square index: every reachable negative index is off-board (its
two's-complement form has bit 3 or 7 set), matching the `Int` test
below. -/
def offBoardI (i : Int) : Bool := i < 0 || (i.toNat &&& 0x88) ≠ 0

/-- Slider direction table from `list-valid-moves.ts`: orthogonal
directions first (indices 0..3), diagonals after (4..7). -/
def DIRS : List Int := [16, 1, -16, -1, 17, -15, -17, 15]

/-- Knight jump table from `list-valid-moves.ts`. -/
def KNIGHT_DIRS : List Int := [31, 33, 14, 18, -18, -14, -33, -31]

/-- Pawn capture file deltas from `list-valid-moves.ts`. -/
def PAWN_CAPS : List Int := [-1, 1]

/-- Single-step target squares (knight, king, pawn diagonals): each
offset that stays on the board. -/
def stepSquares (idx : Nat) (steps : List Int) : List Nat :=
  steps.filterMap (fun s =>
    let t : Int := (idx : Int) + s
    if offBoardI t then none else some t.toNat)

/-- One slider ray from `idx` along `step`: squares until the ray
leaves the board or hits an occupied square; the blocker's square is
included and terminates the ray (spec §4.1). -/
def raysquares (b : List Nat) (idx : Int) (step : Int) : Nat → List Nat
  | 0 => []
  | fuel + 1 =>
    let nxt := idx + step
    if offBoardI nxt then []
    else if b.getD nxt.toNat 0 ≠ 0 then [nxt.toNat]
    else nxt.toNat :: raysquares b nxt step fuel

/-- Modelled from the spec: `attack-map.ts` is not under `src/`.
§4.1: the squares the piece on `idx` attacks through the current
occupancy — pawn: two forward diagonals by color; knight: eight
L-squares; king: eight neighbors; bishop/rook/queen: slider rays that
include and stop at the first blocker. -/
def attacksFrom (b : List Nat) (idx : Nat) : List Nat :=
  let sp := b.getD idx 0
  let t := spaceGetType sp
  if t = PIECETYPE_PAWN then
    stepSquares idx (if spaceGetColor sp = COLOR_WHITE then [17, 15] else [-15, -17])
  else if t = PIECETYPE_KNIGHT then stepSquares idx KNIGHT_DIRS
  else if t = PIECETYPE_KING then stepSquares idx DIRS
  else if t = PIECETYPE_BISHOP then
    (DIRS.drop 4).foldl (fun acc s => acc ++ raysquares b idx s 8) []
  else if t = PIECETYPE_ROOK then
    (DIRS.take 4).foldl (fun acc s => acc ++ raysquares b idx s 8) []
  else if t = PIECETYPE_QUEEN then
    DIRS.foldl (fun acc s => acc ++ raysquares b idx s 8) []
  else []

/-- Modelled from the spec: the attack-map cell `attacks[2*sq + c]`
(§3.4) — the number of pieces of color `color` attacking `sq` through
the current occupancy.  §4.1 and §8 invariant 2 require the
incrementally maintained map to equal this recompute at all times. -/
def attackersCount (b : List Nat) (sq color : Nat) : Nat :=
  ((List.range 128).filter (fun i =>
    b.getD i 0 ≠ 0 && spaceGetColor (b.getD i 0) == color &&
      (attacksFrom b i).contains sq)).length

/-- `attackMapIsAttacked`: `attacks[2*sq + color] > 0` (spec §4.1). -/
def attackMapIsAttacked (p : Position) (sq color : Nat) : Bool :=
  attackersCount p.board sq color ≠ 0

/-- `kingInDanger` from `king-in-danger.ts` (in the sources): scan the
piece list for kings of `kingColor` and test the attack map. -/
def kingInDanger (p : Position) (kingColor : Nat) : Bool :=
  p.pieceList.any (fun idx =>
    let spot := p.get idx
    spaceGetType spot == PIECETYPE_KING && spaceGetColor spot == kingColor &&
      attackMapIsAttacked p idx (8 - kingColor))

/-! ## Move application and reversion -/

/-- Modelled from the spec: `perform-move.ts` is not under `src/`.
§4.4, in order: clear the capture square first when capturing, clear
`from`, place `what | moved-bit` on `to`, move the rook for castles,
replace with the promotion piece; then the metadata updates (`ep`
from `markEnPassant` with `0x88` as "none", the fifty-move clock,
castle rights via king/rook/rook-capture, the move number after a
black move, flip `turn`).  The `put_hash` step acts on the layered
`seen` maps, modelled separately by `HashStack`. -/
def performMove (p : Position) (m : Move) : Position :=
  let color := spaceGetColor m.what
  let p1 := if m.capture ≠ 0 then p.set m.captureCoord 0 else p
  let p2 := (p1.set m.from_ 0).set m.to_ (m.what ||| 16)
  let p3 :=
    if m.castleRook ≠ 0 then
      (p2.set m.castleRookFrom 0).set m.castleRookTo (m.castleRook ||| 16)
    else p2
  let p4 :=
    if m.promote ≠ 0 then p3.set m.to_ (encodePieceSpace m.promote color true)
    else p3
  let castles1 :=
    if spaceGetType m.what = PIECETYPE_KING then castleMapKingMoved p.castles color
    else p.castles
  let castles2 :=
    if spaceGetType m.what = PIECETYPE_ROOK then castleMapRookMoved castles1 m.from_
    else castles1
  let castles3 :=
    if m.capture ≠ 0 ∧ spaceGetType m.capture = PIECETYPE_ROOK then
      castleMapRookMoved castles2 m.captureCoord
    else castles2
  { p4 with
    ep := if m.markEnPassant ≠ 0 then m.markEnPassant else 0x88
    clock := if spaceGetType m.what = PIECETYPE_PAWN ∨ m.capture ≠ 0 then 0
             else p.clock + 1
    moveNum := if color = COLOR_BLACK then p.moveNum + 1 else p.moveNum
    turn := 8 - p.turn
    castles := castles3 }

/-- `revertMove` from `revert-move.ts` (in the sources): put `what`
back on `from` (its byte is the pre-move one, so the moved-bit is
restored), empty `to`, restore the captured piece and the castle
rook, restore the metadata from `prior`, flip `turn`.  The
`removeBoardHash` call acts on the layered `seen` maps, modelled
separately by `HashStack`. -/
def revertMove (p : Position) (m : Move) : Position :=
  let p1 := p.set m.from_ m.what
  let p2 := p1.set m.to_ 0
  let p3 := if m.capture ≠ 0 then p2.set m.captureCoord m.capture else p2
  let p4 :=
    if m.castleRook ≠ 0 then
      (p3.set m.castleRookTo 0).set m.castleRookFrom m.castleRook
    else p3
  { p4 with
    clock := m.prior.clock
    moveNum := m.prior.moveNum
    ep := m.prior.ep
    status := m.prior.status
    castles := m.prior.castles
    turn := 8 - p4.turn }

/-! ## The legal-move generator (`list-valid-moves.ts`, in the sources)

The source's save/restore layering is pure state-passing here: the
trial board built inside `_tryPushMove` is a local value that is
simply not used further, which is exactly what `save(); ...;
restore()` achieves in the source.
-/

/-- Promotion expansion order from `list-valid-moves.ts`. -/
def PROMOTIONS : List Nat :=
  [PIECETYPE_QUEEN, PIECETYPE_ROOK, PIECETYPE_KNIGHT, PIECETYPE_BISHOP]

/-- `_tryPushMove` from `list-valid-moves.ts`: trial-apply the move;
if the moving side's king is not attacked afterwards, emit it
(expanded into the four promotion variants when `promote` is set). -/
def tryPushMove (p : Position) (out : List Move) (move : Move) : List Move :=
  let color := spaceGetColor move.what
  let p2 := performMove p move
  if kingInDanger p2 color then out
  else if move.promote ≠ 0 then out ++ PROMOTIONS.map (moveToPromotion move)
  else out ++ [move]

/-- The inner ray loop of `_findMoves`: step `newIdx` along `step`
while on-board and under `maxDist` steps; emit quiet moves on empty
squares, a capture (and stop) on an enemy piece, stop on a friend. -/
def findMovesLoop (p : Position) (sp idx : Nat) (step : Int)
    (prior : PriorState) (newIdx : Int) (fuel : Nat) (out : List Move) : List Move :=
  match fuel with
  | 0 => out
  | fuel + 1 =>
    if offBoardI newIdx then out
    else
      let c := newIdx.toNat
      let newSp := p.get c
      if newSp = 0 then
        findMovesLoop p sp idx step prior (newIdx + step) fuel
          (tryPushMove p out (createSimpleMove sp idx c prior))
      else if spaceGetColor newSp = 8 - spaceGetColor sp then
        tryPushMove p out (createSimpleCapture sp idx c newSp c prior)
      else out

/-- `_findMoves` from `list-valid-moves.ts`: run the ray loop for each
direction index in `[dirsLow, dirsHigh)`. -/
def findMoves (p : Position) (sp idx : Nat) (dirs : List Int)
    (dirsLow dirsHigh maxDist : Nat) (out : List Move) (prior : PriorState) : List Move :=
  (List.range' dirsLow (dirsHigh - dirsLow)).foldl
    (fun acc dirIdx =>
      findMovesLoop p sp idx (dirs.getD dirIdx 0) prior
        ((idx : Int) + dirs.getD dirIdx 0) maxDist acc)
    out

/-- The board `_tryCastle` builds for its attack check: king and rook
blanked. -/
def castleCleared (p : Position) (move : Move) : Position :=
  (p.set move.from_ 0).set move.castleRookFrom 0

/-- The board `_tryCastle` tests with `kingInDanger`: king and rook
blanked, a phantom king on every square of the king's travel
(inclusive). -/
def castlePhantom (p : Position) (move : Move) : Position :=
  (List.range' (min move.from_ move.to_)
      (max move.from_ move.to_ + 1 - min move.from_ move.to_)).foldl
    (fun q i => q.set i move.what) (castleCleared p move)

/-- `_tryCastle` from `list-valid-moves.ts`: every square in the
inclusive min/max range of the four castle squares must be empty apart
from the king's and rook's origins; then no square of the king's
travel may be attacked, checked by blanking king and rook and placing
phantom kings along the travel; then the move goes through the normal
trial filter. -/
def tryCastle (p : Position) (out : List Move) (move : Move) : List Move :=
  let color := spaceGetColor move.what
  let lo := min (min move.castleRookFrom move.castleRookTo) (min move.from_ move.to_)
  let hi := max (max move.castleRookFrom move.castleRookTo) (max move.from_ move.to_)
  if (List.range' lo (hi + 1 - lo)).all
      (fun idx => idx == move.from_ || idx == move.castleRookFrom || p.get idx == 0) then
    if kingInDanger (castlePhantom p move) color then out
    else tryPushMove p out move
  else out

/-- `_findKingCastles` from `list-valid-moves.ts`. -/
def findKingCastles (p : Position) (sp idx : Nat) (out : List Move)
    (prior : PriorState) : List Move :=
  if spaceHasMoved sp then out
  else
    let color := spaceGetColor sp
    let kRank := castleMapGetFile p.castles color true
    let qRank := castleMapGetFile p.castles color false
    let rank := idx &&& 0xf0
    let out1 :=
      if kRank &&& 0x8 = 0 then
        tryCastle p out
          (createCastle sp idx (rank ||| 6) (p.get (rank ||| kRank))
            (rank ||| kRank) (rank ||| 5) prior)
      else out
    if qRank &&& 0x8 = 0 then
      tryCastle p out1
        (createCastle sp idx (rank ||| 2) (p.get (rank ||| qRank))
          (rank ||| qRank) (rank ||| 3) prior)
    else out1

/-- `_pawnMoves` from `list-valid-moves.ts`: single step, double step
with `markEnPassant`, diagonal captures including en passant; a move
onto the last rank carries `promote = QUEEN` (expanded later by
`_tryPushMove`). -/
def pawnMoves (p : Position) (sp idx : Nat) (out : List Move)
    (prior : PriorState) : List Move :=
  let color := spaceGetColor sp
  let enemy := 8 - color
  let dir : Int := if color = COLOR_WHITE then 1 else -1
  let oneUp : Int := (idx : Int) + 16 * dir
  let twoUp : Int := (idx : Int) + 32 * dir
  if offBoardI oneUp then out
  else
    let oneUpN := oneUp.toNat
    let promote := if offBoardI twoUp then PIECETYPE_QUEEN else 0
    let out1 :=
      if p.get oneUpN = 0 then
        let outA := tryPushMove p out (createFullMove sp idx oneUpN 0 0 0 0 0 promote 0 prior)
        if ¬ spaceHasMoved sp ∧ ¬ offBoardI twoUp ∧ p.get twoUp.toNat = 0 then
          tryPushMove p outA (createFullMove sp idx twoUp.toNat 0 0 0 0 0 0 oneUpN prior)
        else outA
      else out
    PAWN_CAPS.foldl
      (fun acc step =>
        let coord := oneUp + step
        if offBoardI coord then acc
        else
          let coordN := coord.toNat
          let spot := p.get coordN
          if coordN = p.ep then
            let epCoord := ((idx : Int) + step).toNat
            let epSpot := p.get epCoord
            tryPushMove p acc (createFullMove sp idx coordN epSpot epCoord 0 0 0 promote 0 prior)
          else if spot ≠ 0 ∧ spaceGetColor spot = enemy then
            tryPushMove p acc (createFullMove sp idx coordN spot coordN 0 0 0 promote 0 prior)
          else acc)
      out1

/-- `listValidMoves` from `list-valid-moves.ts`: snapshot the prior
state, blank the source square (so slider rays through it see past
it), dispatch on the piece type, and (in the source) restore. -/
def listValidMovesAt (p : Position) (idx : Nat) (out : List Move) : List Move :=
  let sp := p.get idx
  let prior := p.getPriorState
  let cleared := p.set idx 0
  let t := spaceGetType sp
  if t = PIECETYPE_BISHOP then findMoves cleared sp idx DIRS 4 8 8 out prior
  else if t = PIECETYPE_ROOK then findMoves cleared sp idx DIRS 0 4 8 out prior
  else if t = PIECETYPE_QUEEN then findMoves cleared sp idx DIRS 0 8 8 out prior
  else if t = PIECETYPE_KNIGHT then findMoves cleared sp idx KNIGHT_DIRS 0 8 1 out prior
  else if t = PIECETYPE_KING then
    findKingCastles cleared sp idx (findMoves cleared sp idx DIRS 0 8 1 out prior) prior
  else if t = PIECETYPE_PAWN then pawnMoves cleared sp idx out prior
  else out

/-- The cache-free core of `listAllValidMoves` from
`list-valid-moves.ts`: enumerate over the piece list, generating for
each piece of the requested color.  (The `moveCache` wrapper is
modelled as `listAllValidMovesCached` below.) -/
def listAllValidMovesP (p : Position) (color : Nat) : List Move :=
  p.pieceList.foldl
    (fun acc idx =>
      if spaceGetColor (p.get idx) = color then listValidMovesAt p idx acc else acc)
    []

/-! ## Outcome classification (`move-results.ts`, in the sources) -/

/-- Square color (light/dark) of a 0x88 coordinate: parity of
file + rank. -/
def squareShade (idx : Nat) : Nat := ((idx &&& 7) + (idx >>> 4)) % 2

/-- Modelled from the spec: `board-lacks-material.ts` is not under
`src/`.  §4.7: draw when the non-king material is nothing at all, a
lone minor on one side, or a single bishop on each side with both
bishops on the same square shade; any pawn, rook or queen present
disqualifies. -/
def boardLacksMaterial (p : Position) : Bool :=
  let nonKings := p.pieceList.filter (fun i => spaceGetType (p.get i) != PIECETYPE_KING)
  if nonKings.any (fun i =>
      let t := spaceGetType (p.get i)
      t == PIECETYPE_PAWN || t == PIECETYPE_ROOK || t == PIECETYPE_QUEEN) then
    false
  else
    match nonKings with
    | [] => true
    | [_] => true
    | [i, j] =>
      spaceGetType (p.get i) == PIECETYPE_BISHOP &&
        spaceGetType (p.get j) == PIECETYPE_BISHOP &&
        spaceGetColor (p.get i) != spaceGetColor (p.get j) &&
        squareShade i == squareShade j
    | _ => false

/-- `_nextState` from `move-results.ts` (in the sources): the decision
order is no-moves (checkmate/stalemate), fifty-move clock, repetition
count, insufficient material, else the prior status. -/
def nextState (p : Position) (enemyInCheck enemyCanMove : Bool)
    (timesMoveSeen : Nat) : Nat :=
  let priorStatus := p.status
  if ¬ enemyCanMove then
    if enemyInCheck then GAMESTATUS_CHECKMATE else GAMESTATUS_DRAW_STALEMATE
  else if p.clock ≥ 100 then GAMESTATUS_DRAW_FIFTYMOVES
  else if timesMoveSeen ≥ 3 then GAMESTATUS_DRAW_REPETITION
  else if boardLacksMaterial p then GAMESTATUS_DRAW_NOMATERIAL
  else priorStatus

/-- The outcome decision as the spec's own words order it (§4.6 /
claim C3): written independently of `nextState` for comparison. -/
def specOutcome (p : Position) (enemyInCheck enemyCanMove : Bool)
    (timesMoveSeen : Nat) : Nat :=
  if ¬ enemyCanMove ∧ enemyInCheck then GAMESTATUS_CHECKMATE
  else if ¬ enemyCanMove then GAMESTATUS_DRAW_STALEMATE
  else if 100 ≤ p.clock then GAMESTATUS_DRAW_FIFTYMOVES
  else if 3 ≤ timesMoveSeen then GAMESTATUS_DRAW_REPETITION
  else if boardLacksMaterial p then GAMESTATUS_DRAW_NOMATERIAL
  else p.status

/-! ## `perft` (`perft.ts`, in the sources) -/

/-- `perft` from `perft.ts`: at `depth <= 1` the answer is the length
of the legal-move list; otherwise sum over all moves applied. -/
def perft (p : Position) (depth : Int) : Nat :=
  if depth ≤ 1 then (listAllValidMovesP p p.turn).length
  else
    ((listAllValidMovesP p p.turn).map
      (fun m => perft (performMove p m) (depth - 1))).foldl (· + ·) 0
termination_by depth.toNat
decreasing_by
  rename_i h
  simp only [not_le] at h
  omega

/-! ## The layered repetition-hash store (`board.ts`, in the sources)

`putBoardHash` / `removeBoardHash` walk the layer stack from the
current layer downwards.  A `seen` map value is `Option Int`, with
`none` standing for the JavaScript `NaN` that `seen[hash]--` produces
when the current layer has no entry for `hash` (and that `1 + NaN`
propagates in `putBoardHash`).
-/

/-- One layer's `seen` map: association list in insertion order. -/
abbrev SeenMap : Type := List (String × Option Int)

/-- `hash in seen` / `seen[hash]` lookup: `none` if the key is absent,
`some v` if present with value `v` (`v = none` models `NaN`). -/
def seenFind (m : SeenMap) (h : String) : Option (Option Int) :=
  (List.find? (fun kv => kv.1 == h) m).map (fun kv => kv.2)

/-- `seen[hash] = v`: replace the entry if present, append otherwise. -/
def seenStore (m : SeenMap) (h : String) (v : Option Int) : SeenMap :=
  if (List.find? (fun kv => kv.1 == h) m).isSome then
    List.map (fun kv => if kv.1 == h then (kv.1, v) else kv) m
  else m ++ [(h, v)]

/-- The stack of layers' `seen` maps: `current` is the layer at
`#layerIdx`, `below` the layers under it, nearest first.  (`save()`
copies every other layer field but resets `seen` to empty — spec
§3.5/§3.6 — so only the `seen` maps need modelling here.) -/
structure HashStack where
  current : SeenMap
  below : List SeenMap
deriving DecidableEq

/-- The backwards walk shared by `putBoardHash` and
`removeBoardHash`: the value of `hash` in the most recent layer whose
map contains it. -/
def walkFind (s : HashStack) (h : String) : Option (Option Int) :=
  match seenFind s.current h with
  | some v => some v
  | none =>
    (List.find? (fun layer => (seenFind layer h).isSome) s.below).bind
      (fun layer => seenFind layer h)

/-- `Board.putBoardHash` from `board.ts`: walk down for the most
recent occurrence, add 1 (NaN-propagating), store the sum in the
current layer and return it; store and return 1 when the hash was
never seen. -/
def putBoardHash (s : HashStack) (h : String) : Option Int × HashStack :=
  match walkFind s h with
  | some v =>
    let num := v.map (fun n => 1 + n)
    (num, { s with current := seenStore s.current h num })
  | none => (some 1, { s with current := seenStore s.current h (some 1) })

/-- `Board.removeBoardHash` from `board.ts`: walk down for the most
recent occurrence; if one exists anywhere, decrement the *current*
layer's entry (`this.current.seen[hash]--`), which produces a `NaN`
entry when the current layer has none. -/
def removeBoardHash (s : HashStack) (h : String) : HashStack :=
  match walkFind s h with
  | some _ =>
    let dec : Option Int :=
      match seenFind s.current h with
      | some (some v) => some (v - 1)
      | _ => none
    { s with current := seenStore s.current h dec }
  | none => s

/-! ## The `moveCache` wrapper of `listAllValidMoves`

`list-valid-moves.ts` lines 51–65: on a cache hit the function
returns `cached.slice()`, a fresh array; on a miss it builds `out`,
stores `out` in `moveCache[color]` and returns that same `out` object.
The third component of the result records whether the returned array
is the very object held by the cache (aliasing is the one fact a pure
value model cannot express directly, so it is carried explicitly;
both branches' values are read off the source as described).
-/

structure MoveCacheState where
  pos : Position
  cacheWhite : Option (List Move)
  cacheBlack : Option (List Move)
deriving DecidableEq, Repr

def MoveCacheState.cacheOf (s : MoveCacheState) (color : Nat) : Option (List Move) :=
  if color = COLOR_WHITE then s.cacheWhite else s.cacheBlack

/-- `listAllValidMoves` from `list-valid-moves.ts` with its
`moveCache` behavior: result list, updated state, and whether the
returned array is the same object as the cached one. -/
def listAllValidMovesCached (s : MoveCacheState) (color : Nat) :
    List Move × MoveCacheState × Bool :=
  match s.cacheOf color with
  | some cached => (cached, s, false)
  | none =>
    let out := listAllValidMovesP s.pos color
    (out,
      (if color = COLOR_WHITE then { s with cacheWhite := some out }
       else { s with cacheBlack := some out }),
      true)

/-! ## The `ChessGame` facade (`chess-game.ts`, in the sources) -/

/-- `GameMoveInternal` from `game-move.ts`. -/
structure GameMoveInternal where
  num : Nat
  side : String
  sanFrom : String
  sanTo : String
  san : String
  move : Move
deriving DecidableEq, Repr

/-- The fields of `ChessGame` that `undoMove` can observe or touch
(`#board`, `#moves`, `#gameWinner`, `#drawReason`; the PGN tags are
untouched by it). -/
structure ChessGame where
  board : Position
  moves : List GameMoveInternal
  gameWinner : Option String
  drawReason : Option String
deriving DecidableEq, Repr

/-- `ChessGame.undoMove` from `chess-game.ts`: `#moves.pop()` removes
and yields the last history entry (or `undefined` on an empty
history, in which case nothing at all happens); with an entry, the
move is reverted on the board and the recorded winner cleared. -/
def ChessGame.undoMove (g : ChessGame) : ChessGame :=
  match g.moves.getLast? with
  | none => g
  | some m =>
    { g with
      board := revertMove g.board m.move
      moves := g.moves.dropLast
      gameWinner := none }

/-! ## Standard starting position (`build-standar-board.ts`, in the sources) -/

/-- `newLayer()` from `board.ts`: the blank position. -/
def emptyPosition : Position :=
  ⟨List.replicate 128 0, [], 0, 1, 0x88, GAMESTATUS_ACTIVE, COLOR_WHITE, 0⟩

/-- The back-rank piece order from `build-standar-board.ts`. -/
def BACK_ROW : List Nat :=
  [PIECETYPE_ROOK, PIECETYPE_KNIGHT, PIECETYPE_BISHOP, PIECETYPE_QUEEN,
    PIECETYPE_KING, PIECETYPE_BISHOP, PIECETYPE_KNIGHT, PIECETYPE_ROOK]

/-- `_setRow` from `build-standar-board.ts`. -/
def setRow (p : Position) (color start : Nat) (pieces : List Nat) : Position :=
  (List.range 8).foldl
    (fun q i => q.set (start ||| i) (encodePieceSpace (pieces.getD i 0) color false)) p

/-- `buildStandardBoard` from `build-standar-board.ts` (the board and
castle-map part; its `putBoardHash` call acts on the hash stack
modelled separately). -/
def buildStandardBoard : Position :=
  let p := setRow (setRow (setRow (setRow emptyPosition COLOR_WHITE 0x00 BACK_ROW)
    COLOR_WHITE 0x10 (List.replicate 8 PIECETYPE_PAWN))
    COLOR_BLACK 0x60 (List.replicate 8 PIECETYPE_PAWN)) COLOR_BLACK 0x70 BACK_ROW
  { p with castles := buildCastleMap 0x00 0x07 0x70 0x77 }

/-! ## Errors (`chess-error.ts`, in the sources) -/

/-- The error kinds of `chess-error.ts` as a tagged type. -/
inductive ChessError where
  | gameOver
  | badInput (msg : String)
  | badMove (msg : String)
  | needsPromotion
  | parseError (msg : String)
deriving DecidableEq, Repr

/-! ## SAN rendering: the departure disambiguation (`move-to-san.ts`) -/

/-- File letters, as in `coord.ts`. -/
def FILES : List Char := ['a', 'b', 'c', 'd', 'e', 'f', 'g', 'h']

/-- Rank digits, as in `coord.ts`. -/
def RANKS : List Char := ['1', '2', '3', '4', '5', '6', '7', '8']

/-- `coordToAN` from `coord.ts` (in the sources): file letter then
rank digit of a 0x88 coordinate. -/
def coordToAN (idx : Nat) : String :=
  String.mk [FILES.getD (idx &&& 7) 'a', RANKS.getD (idx >>> 4) '1']

/-- `_getDeparture` from `move-to-san.ts` (in the sources): pawn
captures always give the file; otherwise look for doppelgängers (same
piece type, same destination, different source) and return the empty
string, the file letter, the rank digit, or the full square, in that
order of preference. -/
def getDeparture (moves : List Move) (move : Move) : String :=
  let fileChar := FILES.getD (move.from_ &&& 7) 'a'
  let rankChar := RANKS.getD (move.from_ >>> 4) '1'
  if spaceGetType move.what = PIECETYPE_PAWN ∧ move.capture ≠ 0 then
    String.mk [fileChar]
  else
    let similar := moves.filter (fun other =>
      other.from_ != move.from_ && other.to_ == move.to_ &&
        spaceGetType other.what == spaceGetType move.what)
    if similar.isEmpty then ""
    else if similar.all (fun other => (other.from_ &&& 7) != (move.from_ &&& 7)) then
      String.mk [fileChar]
    else if similar.all (fun other => (other.from_ >>> 4) != (move.from_ >>> 4)) then
      String.mk [rankChar]
    else String.mk [fileChar, rankChar]

/-- Claim C6's spec-side notion: a departure hint `d` uniquely
identifies `move` among same-piece-type moves to the same destination
when every candidate matching `d` departs from `move`'s square. -/
def departureIdentifies (moves : List Move) (move : Move) (d : Move → Bool) : Prop :=
  ∀ other ∈ moves,
    other.to_ = move.to_ → spaceGetType other.what = spaceGetType move.what →
      d other = true → other.from_ = move.from_

instance (moves : List Move) (move : Move) (d : Move → Bool) :
    Decidable (departureIdentifies moves move d) := by
  unfold departureIdentifies
  infer_instance

/-- Claim C6's spec-side chooser, written from the spec's words:
pawn captures always include the departure file; otherwise the
shortest hint that uniquely identifies the move, trying the empty
hint, the file letter, the rank digit, then the full square. -/
def specDeparture (moves : List Move) (move : Move) : String :=
  let fileChar := FILES.getD (move.from_ &&& 7) 'a'
  let rankChar := RANKS.getD (move.from_ >>> 4) '1'
  if spaceGetType move.what = PIECETYPE_PAWN ∧ move.capture ≠ 0 then
    String.mk [fileChar]
  else if departureIdentifies moves move (fun _ => true) then ""
  else if departureIdentifies moves move
      (fun o => (o.from_ &&& 7) == (move.from_ &&& 7)) then
    String.mk [fileChar]
  else if departureIdentifies moves move
      (fun o => (o.from_ >>> 4) == (move.from_ >>> 4)) then
    String.mk [rankChar]
  else String.mk [fileChar, rankChar]

/-! ## SAN parsing (`find-move-by-san.ts`, in the sources)

The two regular expressions `CASTLE_RE` and `MOVE_RE` are modelled by
explicit matchers with JavaScript's leftmost-greedy backtracking:
each optional group first tries to consume its character and falls
back to the empty alternative.  Trailing annotations
(`(?:\s+|[!?]+|[+#]|[eE]\.?[pP]\.?|(1|0|1/2|½)-(1|0|1/2|½))*$`) are
accepted by `matchAnnots`, which explores every way of consuming one
annotation and recurses; acceptance of the whole suffix is all the
anchor `$` requires.
-/

def isFileChar (c : Char) : Bool := 'a' ≤ c && c ≤ 'h'

def isRankChar (c : Char) : Bool := '1' ≤ c && c ≤ '8'

def isPieceChar (c : Char) : Bool :=
  c == 'B' || c == 'N' || c == 'R' || c == 'Q' || c == 'K'

def isPromoChar (c : Char) : Bool :=
  c == 'B' || c == 'N' || c == 'R' || c == 'Q'

/-- The ASCII whitespace of the regex class `\s` (the inputs here
never contain the exotic Unicode members). -/
def isSpaceChar (c : Char) : Bool :=
  c == ' ' || c == '\t' || c == '\n' || c == '\x0d' || c == '\x0c' || c == '\x0b'

def isBangHook (c : Char) : Bool := c == '!' || c == '?'

/-- Remainders after consuming 1..n characters of a `X+` run. -/
def plusRuns (pred : Char → Bool) (s : List Char) : List (List Char) :=
  (List.range (s.takeWhile pred).length).map (fun k => s.drop (k + 1))

/-- Remainders after consuming one `[eE]\.?[pP]\.?` annotation. -/
def epRemainders (s : List Char) : List (List Char) :=
  let eChar := fun (c : Char) => c == 'e' || c == 'E'
  let pChar := fun (c : Char) => c == 'p' || c == 'P'
  (match s with
   | c1 :: '.' :: c2 :: '.' :: rest => if eChar c1 && pChar c2 then [rest] else []
   | _ => []) ++
  (match s with
   | c1 :: '.' :: c2 :: rest => if eChar c1 && pChar c2 then [rest] else []
   | _ => []) ++
  (match s with
   | c1 :: c2 :: '.' :: rest => if eChar c1 && pChar c2 then [rest] else []
   | _ => []) ++
  (match s with
   | c1 :: c2 :: rest => if eChar c1 && pChar c2 then [rest] else []
   | _ => [])

/-- The game-termination markers `1`, `0`, `1/2`, `½`. -/
def resultTokens : List (List Char) := [['1'], ['0'], ['1', '/', '2'], ['½']]

/-- Remainders after consuming one `(1|0|1/2|½)-(1|0|1/2|½)` marker. -/
def resultRemainders (s : List Char) : List (List Char) :=
  resultTokens.foldl
    (fun acc l =>
      resultTokens.foldl
        (fun acc2 r =>
          let pat := l ++ '-' :: r
          if s.take pat.length = pat then s.drop pat.length :: acc2 else acc2)
        acc)
    []

/-- All remainders after consuming exactly one trailing annotation. -/
def annotSplits (s : List Char) : List (List Char) :=
  plusRuns isSpaceChar s ++ plusRuns isBangHook s ++
    (match s with
     | c :: rest => if c == '+' || c == '#' then [rest] else []
     | [] => []) ++
    epRemainders s ++ resultRemainders s

def matchAnnotsFuel : Nat → List Char → Bool
  | _, [] => true
  | 0, _ => false
  | fuel + 1, s => (annotSplits s).any (matchAnnotsFuel fuel)

/-- Acceptance of `(annotation)*$`. -/
def matchAnnots (s : List Char) : Bool := matchAnnotsFuel (s.length + 1) s

/-- The capture groups of `MOVE_RE`. -/
structure SanParts where
  piece : Option Char
  file : Option Char
  rank : Option Char
  isCap : Bool
  dest1 : Char
  dest2 : Char
  promo : Option Char
deriving DecidableEq, Repr

/-- After the four optional leading groups: match
`([a-h][1-8])(?:=([BNRQ]))?(annotation)*$`. -/
def finishSan (piece file rank : Option Char) (isCap : Bool) :
    List Char → Option SanParts
  | d1 :: d2 :: rest =>
    if isFileChar d1 && isRankChar d2 then
      match rest with
      | '=' :: pc :: rest2 =>
        if isPromoChar pc && matchAnnots rest2 then
          some ⟨piece, file, rank, isCap, d1, d2, some pc⟩
        else if matchAnnots rest then
          some ⟨piece, file, rank, isCap, d1, d2, none⟩
        else none
      | _ =>
        if matchAnnots rest then some ⟨piece, file, rank, isCap, d1, d2, none⟩
        else none
    else none
  | _ => none

/-- The `(x?)` group, greedy with fallback. -/
def sanAfterRank (piece file rank : Option Char) (s : List Char) : Option SanParts :=
  match s with
  | 'x' :: rest =>
    (finishSan piece file rank true rest).orElse
      (fun _ => finishSan piece file rank false s)
  | _ => finishSan piece file rank false s

/-- The `([1-8]?)` group, greedy with fallback. -/
def sanAfterFile (piece file : Option Char) (s : List Char) : Option SanParts :=
  match s with
  | c :: rest =>
    if isRankChar c then
      (sanAfterRank piece file (some c) rest).orElse
        (fun _ => sanAfterRank piece file none s)
    else sanAfterRank piece file none s
  | [] => sanAfterRank piece file none []

/-- The `([a-h]?)` group, greedy with fallback. -/
def sanAfterPiece (piece : Option Char) (s : List Char) : Option SanParts :=
  match s with
  | c :: rest =>
    if isFileChar c then
      (sanAfterFile piece (some c) rest).orElse
        (fun _ => sanAfterFile piece none s)
    else sanAfterFile piece none s
  | [] => sanAfterFile piece none []

/-- `MOVE_RE` matching: the `([BNRQK]?)` group then the rest. -/
def matchMoveRe (s : List Char) : Option SanParts :=
  match s with
  | c :: rest =>
    if isPieceChar c then
      (sanAfterPiece (some c) rest).orElse (fun _ => sanAfterPiece none s)
    else sanAfterPiece none s
  | [] => sanAfterPiece none []

/-- `CASTLE_RE` matching; yields the length of capture group 1
(5 for the queenside form).  The alternation tries the `O` forms
before the `0` forms and the greedy `(?:-O)?` first. -/
def matchCastleRe (s : List Char) : Option Nat :=
  if s.take 5 = ['O', '-', 'O', '-', 'O'] && matchAnnots (s.drop 5) then some 5
  else if s.take 3 = ['O', '-', 'O'] && matchAnnots (s.drop 3) then some 3
  else if s.take 5 = ['0', '-', '0', '-', '0'] && matchAnnots (s.drop 5) then some 5
  else if s.take 3 = ['0', '-', '0'] && matchAnnots (s.drop 3) then some 3
  else none

/-- `PIECETYPE_MAP` from `find-move-by-san.ts`: the empty group gives
a pawn. -/
def pieceTypeMap (c : Option Char) : Nat :=
  match c with
  | none => PIECETYPE_PAWN
  | some 'B' => PIECETYPE_BISHOP
  | some 'N' => PIECETYPE_KNIGHT
  | some 'R' => PIECETYPE_ROOK
  | some 'Q' => PIECETYPE_QUEEN
  | some 'K' => PIECETYPE_KING
  | some _ => 0

/-- `buildCoord` from `coord.ts`. -/
def buildCoord (file rank : Nat) : Nat := ((rank &&& 7) <<< 4) ||| (file &&& 7)

/-- `coordFromAN` applied to the (already validated) destination
group `match[5]`. -/
def coordFromANPair (d1 d2 : Char) : Nat := buildCoord (d1.toNat - 97) (d2.toNat - 49)

/-- `_selectMoveByInvariant` from `perft.ts` / `find-move-by-san.ts`
(in the sources): scan for moves satisfying `fn`; a second match
aborts — with `NeedsPromotion` when both the first and the second
match carry a promotion, with the ambiguity `BadMove` otherwise. -/
def selectLoop (san : String) (fn : Move → Bool) :
    List Move → Option Move → Except ChessError Move
  | [], none => .error (.badMove (san ++ " is not a valid move"))
  | [], some f => .ok f
  | m :: rest, found =>
    if fn m then
      match found with
      | some f =>
        if f.promote ≠ 0 ∧ m.promote ≠ 0 then .error .needsPromotion
        else .error (.badMove (san ++ " is ambiguous"))
      | none => selectLoop san fn rest (some m)
    else selectLoop san fn rest found

/-- `_selectMoveByInvariant`'s entry point. -/
def selectMoveByInvariant (moves : List Move) (san : String) (fn : Move → Bool) :
    Except ChessError Move :=
  selectLoop san fn moves none

/-- The `MOVE_RE`-derived predicate of `findMoveBySAN` (destination,
piece type, optional departure file/rank, capture flag, optional
promotion). -/
def sanMovePred (mt : SanParts) (move : Move) : Bool :=
  coordFromANPair mt.dest1 mt.dest2 == move.to_ &&
    spaceGetType move.what == pieceTypeMap mt.piece &&
    (match mt.file with
     | some f => (move.from_ &&& 0x7) == f.toNat - 97
     | none => true) &&
    (match mt.rank with
     | some r => ((move.from_ >>> 4) &&& 0x7) == r.toNat - 49
     | none => true) &&
    (if mt.isCap then move.capture != 0 else move.capture == 0) &&
    (match mt.promo with
     | some pr => move.promote == pieceTypeMap (some pr)
     | none => true)

/-- The `san.trim()` call of `findMoveBySAN`: strip whitespace from
both ends (written out so that it evaluates inside the kernel). -/
def jsTrim (s : String) : String :=
  String.mk (((s.toList.dropWhile isSpaceChar).reverse.dropWhile isSpaceChar).reverse)

/-- `findMoveBySAN` from `find-move-by-san.ts` (in the sources). -/
def findMoveBySAN (moves : List Move) (san : String) : Except ChessError Move :=
  let sanT := jsTrim san
  let cs := sanT.toList
  match matchCastleRe cs with
  | some g1len =>
    selectMoveByInvariant moves sanT
      (fun move =>
        if g1len = 5 then (move.castleRookTo &&& 0x7) == 3
        else (move.castleRookTo &&& 0x7) == 5)
  | none =>
    match matchMoveRe cs with
    | none => .error (.badMove ("Could not parse: " ++ sanT))
    | some mt => selectMoveByInvariant moves sanT (sanMovePred mt)

/-! ## Witness positions -/

/-- Place pieces on the blank board through `Position.set` (the same
way `build-standar-board.ts` and the FEN loader populate a board). -/
def placePieces (l : List (Nat × Nat)) : Position :=
  l.foldl (fun p x => p.set x.1 x.2) emptyPosition

/-- Kings only: white king a1 (moved), black king h8 (moved); no
castle rights (`0x8888`). -/
def kingsOnlyPos : Position :=
  { placePieces [(0x00, 22), (0x77, 30)] with castles := 0x8888 }

/-- White pawns b7/d7 (moved), black rook c8, white king e1, black
king h5; white to move; no castle rights. -/
def promoAmbigPos : Position :=
  { placePieces [(0x61, 17), (0x63, 17), (0x72, 12), (0x04, 6), (0x37, 30)] with
    castles := 0x8888 }

/-! ## C9: `perft` at depth ≤ 1 -/

/-- C9: for every board and every depth ≤ 1 (including 0 and negative
depths) `perft` returns the length of the legal-move list of the side
to move; in particular `perft board 0 = perft board 1` (instead of
the conventional 1 at depth 0). -/
theorem perft_shallow_is_move_count (p : Position) (d : Int) (h : d ≤ 1) :
    perft p d = (listAllValidMovesP p p.turn).length ∧ perft p 0 = perft p 1 := by
  constructor
  · rw [perft]
    simp [h]
  · rw [perft, perft]
    norm_num

/-- Witness for C9 at the two-kings position and depth 0. -/
theorem perft_shallow_is_move_count_witness :
    (0 : Int) ≤ 1 ∧
      (perft kingsOnlyPos 0 = (listAllValidMovesP kingsOnlyPos kingsOnlyPos.turn).length ∧
        perft kingsOnlyPos 0 = perft kingsOnlyPos 1) :=
  ⟨by norm_num, perft_shallow_is_move_count kingsOnlyPos 0 (by norm_num)⟩

/-! ## C10: `ChessGame.undoMove` -/

/-- C10: `undoMove` on an empty history returns the game unchanged
(and, being a total function here as in the source, raises nothing);
on a non-empty history it reverts exactly the last recorded move and
clears the recorded winner (the draw reason and the rest are
untouched). -/
theorem chessGame_undoMove_spec (g : ChessGame) :
    (g.moves = [] → g.undoMove = g) ∧
    (∀ m, g.moves.getLast? = some m →
      g.undoMove =
        { board := revertMove g.board m.move
          moves := g.moves.dropLast
          gameWinner := none
          drawReason := g.drawReason }) := by
  constructor
  · intro h
    unfold ChessGame.undoMove
    simp [h]
  · intro m h
    unfold ChessGame.undoMove
    simp [h]

/-- Witness for C10: an empty-history game is untouched, and a
one-move history is popped with the winner cleared. -/
theorem chessGame_undoMove_spec_witness :
    (ChessGame.undoMove ⟨kingsOnlyPos, [], some "white", none⟩ =
        ⟨kingsOnlyPos, [], some "white", none⟩) ∧
      ChessGame.undoMove
          ⟨kingsOnlyPos, [⟨1, "white", "a1", "a2",  "Ka2",
            createSimpleMove 22 0 16 kingsOnlyPos.getPriorState⟩], some "white", none⟩ =
        { board := revertMove kingsOnlyPos
            (createSimpleMove 22 0 16 kingsOnlyPos.getPriorState)
          moves := []
          gameWinner := none
          drawReason := none } := by
  constructor
  · exact (chessGame_undoMove_spec ⟨kingsOnlyPos, [], some "white", none⟩).1 rfl
  · exact (chessGame_undoMove_spec
      ⟨kingsOnlyPos, [⟨1, "white", "a1", "a2",  "Ka2",
        createSimpleMove 22 0 16 kingsOnlyPos.getPriorState⟩], some "white", none⟩).2
      ⟨1, "white", "a1", "a2",  "Ka2",
        createSimpleMove 22 0 16 kingsOnlyPos.getPriorState⟩ rfl

/-! ## C3: the outcome classifier's decision order -/

/-- C3: `_nextState` decides exactly in the claimed precedence — it
coincides with `specOutcome`, the decision written from the claim's
words (no moves: checkmate when in check else stalemate; then clock ≥
100; then three occurrences; then material; else unchanged) — and,
from an active game, the fifty-move and repetition draws trigger
precisely as claimed. -/
theorem nextState_decision_order (p : Position) (enemyInCheck enemyCanMove : Bool)
    (timesMoveSeen : Nat) (hactive : p.status = GAMESTATUS_ACTIVE) :
    nextState p enemyInCheck enemyCanMove timesMoveSeen =
        specOutcome p enemyInCheck enemyCanMove timesMoveSeen ∧
      (nextState p enemyInCheck enemyCanMove timesMoveSeen = GAMESTATUS_DRAW_FIFTYMOVES ↔
        enemyCanMove = true ∧ 100 ≤ p.clock) ∧
      (nextState p enemyInCheck enemyCanMove timesMoveSeen = GAMESTATUS_DRAW_REPETITION ↔
        enemyCanMove = true ∧ p.clock < 100 ∧ 3 ≤ timesMoveSeen) := by
  unfold nextState specOutcome
  unfold GAMESTATUS_ACTIVE at hactive
  refine ⟨?_, ?_, ?_⟩ <;>
    rcases enemyCanMove with _ | _ <;>
    rcases enemyInCheck with _ | _ <;>
    simp_all [GAMESTATUS_CHECKMATE, GAMESTATUS_DRAW_STALEMATE, GAMESTATUS_DRAW_FIFTYMOVES,
      GAMESTATUS_DRAW_REPETITION, GAMESTATUS_DRAW_NOMATERIAL] <;>
    split_ifs <;> simp_all

/-- Witness for C3 at an active two-kings position with the
fifty-move clock expired. -/
theorem nextState_decision_order_witness :
    kingsOnlyPos.status = GAMESTATUS_ACTIVE ∧
      ({ kingsOnlyPos with clock := 100 }.status = GAMESTATUS_ACTIVE ∧
        nextState { kingsOnlyPos with clock := 100 } false true 1 = GAMESTATUS_DRAW_FIFTYMOVES) :=
  ⟨by decide,
    ⟨by decide,
      ((nextState_decision_order { kingsOnlyPos with clock := 100 } false true 1
        (by decide)).2.1).2 (by decide)⟩⟩

/-! ## C8: the `moveCache` defensive copy -/

/-- C8 counterexample: on the very first (cache-miss) call,
`listAllValidMoves` stores `out` in `moveCache[color]` and returns the
same `out` object — the alias flag is `true`, and the cache now holds
the very list that was returned.  The claim that *every* call returns
an array distinct from the cached one is therefore false. -/
theorem listAllValidMoves_alias_cex :
    (listAllValidMovesCached ⟨emptyPosition, none, none⟩ COLOR_WHITE).2.2 = true ∧
      (listAllValidMovesCached ⟨emptyPosition, none, none⟩ COLOR_WHITE).2.1.cacheOf
          COLOR_WHITE =
        some (listAllValidMovesCached ⟨emptyPosition, none, none⟩ COLOR_WHITE).1 := by
  constructor <;> rfl

/-- C8 as amended: a call that hits the cache returns a copy (not the
cached array) and leaves the state alone; the call that populates the
cache returns the very array it cached (so mutating that one returned
list does change what later calls return). -/
theorem listAllValidMoves_cache_copy :
    (∀ s color cached, s.cacheOf color = some cached →
      listAllValidMovesCached s color = (cached, s, false)) ∧
    (∀ s color, s.cacheOf color = none →
      (listAllValidMovesCached s color).2.2 = true ∧
        (listAllValidMovesCached s color).1 = listAllValidMovesP s.pos color ∧
        (listAllValidMovesCached s color).2.1.cacheOf color =
          some (listAllValidMovesCached s color).1) := by
  constructor
  · intro s color cached h
    unfold listAllValidMovesCached
    rw [h]
  · intro s color h
    unfold listAllValidMovesCached
    rw [h]
    by_cases hc : color = COLOR_WHITE <;> simp [hc, MoveCacheState.cacheOf]

/-- Witness for C8 at a concrete cache-hit state. -/
theorem listAllValidMoves_cache_copy_witness :
    listAllValidMovesCached ⟨emptyPosition, some [], none⟩ COLOR_WHITE =
      ([], ⟨emptyPosition, some [], none⟩, false) :=
  listAllValidMoves_cache_copy.1 ⟨emptyPosition, some [], none⟩ COLOR_WHITE [] rfl


/-! ## C7: the layered repetition-hash accounting -/

theorem seenFind_map_replace (m : SeenMap) (h k : String) (v : Option Int)
    (hne : k ≠ h) :
    seenFind (List.map (fun kv => if kv.1 == h then (kv.1, v) else kv) m) k =
      seenFind m k := by
  induction m with
  | nil => rfl
  | cons kv rest ih =>
    by_cases hkv : kv.1 = h
    · have h1 : (kv.1 == h) = true := by simp [hkv]
      have h2 : (kv.1 == k) = false := by simp [hkv, Ne.symm hne]
      simp only [seenFind, List.map, List.find?, h1, if_true, h2]
      exact ih
    · have h1 : (kv.1 == h) = false := by simp [hkv]
      simp only [seenFind, List.map, List.find?, h1, if_false]
      by_cases h2 : kv.1 = k
      · simp [h2]
      · have h2b : (kv.1 == k) = false := by simp [h2]
        simp only [h2b, Bool.false_eq_true, if_false]
        exact ih

theorem seenStore_cons (kv : String × Option Int) (rest : SeenMap) (h : String)
    (v : Option Int) (hne : kv.1 ≠ h) :
    seenStore (kv :: rest) h v = kv :: seenStore rest h v := by
  have h1 : (kv.1 == h) = false := by simp [hne]
  unfold seenStore
  simp only [List.find?, h1, Bool.false_eq_true, if_false]
  by_cases h2 : (List.find? (fun kv => kv.1 == h) rest).isSome
  · simp only [h2, if_true, List.map, h1, Bool.false_eq_true, if_false]
  · simp only [h2, Bool.false_eq_true, if_false, List.cons_append]

theorem seenFind_seenStore (m : SeenMap) (h : String) (v : Option Int) (k : String) :
    seenFind (seenStore m h v) k = if k = h then some v else seenFind m k := by
  induction m with
  | nil =>
    by_cases hk : k = h
    · simp [seenStore, seenFind, List.find?, hk]
    · have h1 : (h == k) = false := by simp [Ne.symm hk]
      simp [seenStore, seenFind, List.find?, hk, h1]
  | cons kv rest ih =>
    by_cases hkv : kv.1 = h
    · have hpres : (List.find? (fun kv => kv.1 == h) (kv :: rest)).isSome := by
        simp [List.find?, hkv]
      unfold seenStore
      simp only [hpres, if_true]
      by_cases hk : k = h
      · subst hk
        simp [seenFind, List.find?, hkv]
      · have h2 : (kv.1 == k) = false := by simp [hkv, Ne.symm hk]
        have h1 : (kv.1 == h) = true := by simp [hkv]
        simp only [List.map, h1, if_true, hk, if_false]
        simp only [seenFind, List.find?, h2, Bool.false_eq_true, if_false]
        have := seenFind_map_replace rest h k v hk
        simpa [seenFind] using this
    · rw [seenStore_cons kv rest h v hkv]
      by_cases hk : k = h
      · subst hk
        have h2 : (kv.1 == k) = false := by simp [hkv]
        simp only [seenFind, List.find?, h2, Bool.false_eq_true, if_false, if_true]
        have := ih
        simp only [if_pos rfl] at this
        simpa [seenFind] using this
      · by_cases h2 : kv.1 = k
        · simp [seenFind, List.find?, h2, hk]
        · have h2b : (kv.1 == k) = false := by simp [h2]
          simp only [seenFind, List.find?, h2b, Bool.false_eq_true, if_false, hk]
          have := ih
          simp only [hk, if_false] at this
          simpa [seenFind] using this

theorem walkFind_seenStore (c : SeenMap) (below : List SeenMap) (h : String)
    (v : Option Int) (k : String) :
    walkFind ⟨seenStore c h v, below⟩ k =
      if k = h then some v else walkFind ⟨c, below⟩ k := by
  unfold walkFind
  simp only [seenFind_seenStore]
  by_cases hk : k = h
  · simp [hk]
  · simp only [hk, if_false]

/-- C7 counterexample: with the current layer empty and the layer
below holding hash `"x"` with count 1, `removeBoardHash "x"` leaves
the below layer's entry at 1 (the nearest occurrence is *not*
decremented, contrary to the claim) and instead materialises a `NaN`
entry (`none`) for `"x"` in the current layer
(`this.current.seen[hash]--` on a missing key). -/
theorem removeBoardHash_nearest_cex :
    (removeBoardHash ⟨[], [[("x", some 1)]]⟩ "x").below = [[("x", some 1)]] ∧
      (removeBoardHash ⟨[], [[("x", some 1)]]⟩ "x").current = [("x", none)] := by
  constructor <;> rfl

/-- C7 as amended: `putBoardHash` walks the layer stack downwards,
returns one more than the most recent count of `h` (1 if never seen,
`NaN` propagating), and stores that value in the *current* layer;
`removeBoardHash` does nothing when `h` occurs nowhere, and otherwise
decrements the *current* layer's entry for `h` (not the nearest
layer's — see the counterexample); and a `putBoardHash` followed by a
`removeBoardHash` of the same hash changes no observable count: every
subsequent `putBoardHash` returns exactly what it would have returned
before the pair. -/
theorem boardHash_layered_spec :
    (∀ s h, (putBoardHash s h).1 =
        (match walkFind s h with
         | none => some 1
         | some v => v.map (fun n => 1 + n)) ∧
      (putBoardHash s h).2.below = s.below ∧
      (putBoardHash s h).2.current = seenStore s.current h (putBoardHash s h).1) ∧
    (∀ s h, walkFind s h = none → removeBoardHash s h = s) ∧
    (∀ s h h',
      (putBoardHash (removeBoardHash (putBoardHash s h).2 h) h').1 =
        (putBoardHash s h').1) := by
  refine ⟨?_, ?_, ?_⟩
  · intro s h
    unfold putBoardHash
    cases hw : walkFind s h <;> simp [hw]
  · intro s h h0
    unfold removeBoardHash
    rw [h0]
  · intro s h h'
    obtain ⟨c, below⟩ := s
    cases hw : walkFind ⟨c, below⟩ h with
    | none =>
      simp only [putBoardHash, hw]
      have hw1 : walkFind ⟨seenStore c h (some 1), below⟩ h = some (some 1) := by
        rw [walkFind_seenStore]
        simp
      simp only [removeBoardHash, hw1, seenFind_seenStore, eq_self_iff_true, if_true]
      by_cases hh : h' = h
      · subst hh
        have hw2 : walkFind ⟨seenStore (seenStore c h' (some 1)) h' (some (1 - 1)), below⟩ h' =
            some (some (1 - 1)) := by
          rw [walkFind_seenStore]
          simp
        rw [hw2, hw]
        norm_num
      · have hw2 : walkFind ⟨seenStore (seenStore c h (some 1)) h (some (1 - 1)), below⟩ h' =
            walkFind ⟨c, below⟩ h' := by
          rw [walkFind_seenStore, if_neg hh, walkFind_seenStore, if_neg hh]
        rw [hw2]
        cases hx : walkFind ⟨c, below⟩ h' <;> simp [hx]
    | some v =>
      simp only [putBoardHash, hw]
      have hw1 : walkFind ⟨seenStore c h (v.map (fun n => 1 + n)), below⟩ h =
          some (v.map (fun n => 1 + n)) := by
        rw [walkFind_seenStore]
        simp
      simp only [removeBoardHash, hw1, seenFind_seenStore, eq_self_iff_true, if_true]
      by_cases hh : h' = h
      · subst hh
        cases v with
        | none =>
          have hw2 : walkFind ⟨seenStore (seenStore c h' (Option.map (fun n => 1 + n) none)) h'
              none, below⟩ h' = some none := by
            rw [walkFind_seenStore]
            simp
          simp only [Option.map_none'] at hw2 ⊢
          rw [hw2, hw]
        | some n =>
          have hw2 : walkFind ⟨seenStore (seenStore c h' (Option.map (fun k => 1 + k) (some n))) h'
              (some (1 + n - 1)), below⟩ h' = some (some (1 + n - 1)) := by
            rw [walkFind_seenStore]
            simp
          simp only [Option.map_some'] at hw2 ⊢
          rw [hw2, hw]
          norm_num
      · cases v with
        | none =>
          have hw2 : walkFind ⟨seenStore (seenStore c h (Option.map (fun n => 1 + n) none)) h
              none, below⟩ h' = walkFind ⟨c, below⟩ h' := by
            rw [walkFind_seenStore, if_neg hh, walkFind_seenStore, if_neg hh]
          simp only [Option.map_none'] at hw2 ⊢
          rw [hw2]
          cases hx : walkFind ⟨c, below⟩ h' <;> simp [hx]
        | some n =>
          have hw2 : walkFind ⟨seenStore (seenStore c h (Option.map (fun k => 1 + k) (some n))) h
              (some (1 + n - 1)), below⟩ h' = walkFind ⟨c, below⟩ h' := by
            rw [walkFind_seenStore, if_neg hh, walkFind_seenStore, if_neg hh]
          simp only [Option.map_some'] at hw2 ⊢
          rw [hw2]
          cases hx : walkFind ⟨c, below⟩ h' <;> simp [hx]

/-- Witness for C7's hypothesis (`removeBoardHash` on an absent hash)
at the empty stack. -/
theorem boardHash_layered_spec_witness :
    removeBoardHash ⟨[], []⟩ "h" = ⟨[], []⟩ :=
  boardHash_layered_spec.2.1 ⟨[], []⟩ "h" rfl

/-! ## C5: SAN move selection errors -/

theorem selectLoop_found (san : String) (fn : Move → Bool) :
    ∀ (l : List Move) (f : Move),
      selectLoop san fn l (some f) =
        match l.filter fn with
        | [] => .ok f
        | m :: _ =>
          if f.promote ≠ 0 ∧ m.promote ≠ 0 then .error .needsPromotion
          else .error (.badMove (san ++ " is ambiguous")) := by
  intro l
  induction l with
  | nil => intro f; rfl
  | cons m rest ih =>
    intro f
    by_cases hm : fn m
    · simp [selectLoop, hm, List.filter_cons, hm]
    · simp only [selectLoop, hm, Bool.false_eq_true, if_false, List.filter_cons]
      rw [ih f]

theorem selectLoop_none (san : String) (fn : Move → Bool) :
    ∀ (l : List Move),
      selectLoop san fn l none =
        match l.filter fn with
        | [] => .error (.badMove (san ++ " is not a valid move"))
        | [m] => .ok m
        | m1 :: m2 :: _ =>
          if m1.promote ≠ 0 ∧ m2.promote ≠ 0 then .error .needsPromotion
          else .error (.badMove (san ++ " is ambiguous")) := by
  intro l
  induction l with
  | nil => rfl
  | cons m rest ih =>
    by_cases hm : fn m
    · simp only [selectLoop, hm, if_true, List.filter_cons]
      rw [selectLoop_found san fn rest m]
      cases hr : rest.filter fn <;> simp [hr]
    · simp only [selectLoop, hm, Bool.false_eq_true, if_false, List.filter_cons]
      rw [ih]

/-- C5 as amended: with zero matches selection fails with the
`BadMove` "not a valid move" error; a unique match is returned; with
two or more matches it fails with `NeedsPromotion` exactly when the
first two matching moves both carry a promotion (whether or not they
differ in anything else — see the counterexample), and with the
ambiguity `BadMove` otherwise. -/
theorem selectMoveByInvariant_spec (moves : List Move) (san : String) (fn : Move → Bool) :
    (moves.filter fn = [] →
      selectMoveByInvariant moves san fn =
        .error (.badMove (san ++ " is not a valid move"))) ∧
    (∀ m, moves.filter fn = [m] → selectMoveByInvariant moves san fn = .ok m) ∧
    (∀ m1 m2 rest, moves.filter fn = m1 :: m2 :: rest →
      selectMoveByInvariant moves san fn =
        if m1.promote ≠ 0 ∧ m2.promote ≠ 0 then .error .needsPromotion
        else .error (.badMove (san ++ " is ambiguous"))) := by
  unfold selectMoveByInvariant
  rw [selectLoop_none]
  refine ⟨?_, ?_, ?_⟩
  · intro h; rw [h]
  · intro m h; rw [h]
  · intro m1 m2 rest h; rw [h]

deriving instance DecidableEq for Except

set_option maxRecDepth 10000 in
/-- C5 counterexample: in the position with white pawns b7/d7 and a
black rook c8, the SAN string `"xc8=Q"` matches the two legal moves
`bxc8=Q` and `dxc8=Q`, which differ in their departure square — not
only in the promotion piece — yet `findMoveBySAN` fails with
`NeedsPromotion` rather than the ambiguity error the claim
prescribes for that case. -/
theorem findMoveBySAN_needsPromotion_cex :
    findMoveBySAN (listAllValidMovesP promoAmbigPos COLOR_WHITE) "xc8=Q" =
        .error .needsPromotion ∧
      matchMoveRe ("xc8=Q".toList) = some ⟨none, none, none, true, 'c', '8', some 'Q'⟩ ∧
      ((listAllValidMovesP promoAmbigPos COLOR_WHITE).filter
          (sanMovePred ⟨none, none, none, true, 'c', '8', some 'Q'⟩)).map
          (fun m => (m.from_, m.to_, m.promote)) = [(0x61, 0x72, 5), (0x63, 0x72, 5)] := by
  refine ⟨by decide, by decide, by decide⟩

/-- Witness for C5 at a singleton match. -/
theorem selectMoveByInvariant_spec_witness :
    [createSimpleMove 4 1 17 ⟨0, 1, 0x88, 0, 0⟩].filter (fun _ => true) =
        [createSimpleMove 4 1 17 ⟨0, 1, 0x88, 0, 0⟩] ∧
      selectMoveByInvariant [createSimpleMove 4 1 17 ⟨0, 1, 0x88, 0, 0⟩] "Rb2"
          (fun _ => true) =
        .ok (createSimpleMove 4 1 17 ⟨0, 1, 0x88, 0, 0⟩) :=
  ⟨rfl,
    (selectMoveByInvariant_spec [createSimpleMove 4 1 17 ⟨0, 1, 0x88, 0, 0⟩] "Rb2"
      (fun _ => true)).2.1 _ rfl⟩


/-! ## C6: SAN departure disambiguation -/

theorem departureIdentifies_iff_similar (moves : List Move) (move : Move) (d : Move → Bool) :
    departureIdentifies moves move d ↔
      ∀ o ∈ moves.filter (fun other =>
        other.from_ != move.from_ && other.to_ == move.to_ &&
          spaceGetType other.what == spaceGetType move.what), d o = false := by
  constructor
  · intro hid o ho
    rw [List.mem_filter] at ho
    obtain ⟨hmem, hcond⟩ := ho
    simp only [Bool.and_eq_true, bne_iff_ne, beq_iff_eq] at hcond
    obtain ⟨⟨hne, hto⟩, hty⟩ := hcond
    by_contra hcon
    simp only [Bool.not_eq_false] at hcon
    exact hne (hid o hmem hto hty hcon)
  · intro hall o hmem hto hty hd
    by_contra hne
    have ho : o ∈ moves.filter (fun other =>
        other.from_ != move.from_ && other.to_ == move.to_ &&
          spaceGetType other.what == spaceGetType move.what) := by
      rw [List.mem_filter]
      refine ⟨hmem, ?_⟩
      simp [hne, hto, hty]
    have := hall o ho
    rw [hd] at this
    exact Bool.true_eq_false.mp this

theorem identifies_empty_iff (moves : List Move) (move : Move) :
    departureIdentifies moves move (fun _ => true) ↔
      (moves.filter (fun other =>
        other.from_ != move.from_ && other.to_ == move.to_ &&
          spaceGetType other.what == spaceGetType move.what)).isEmpty = true := by
  rw [departureIdentifies_iff_similar, List.isEmpty_iff]
  constructor
  · intro h
    by_contra hne
    obtain ⟨o, ho⟩ := List.exists_mem_of_ne_nil _ hne
    exact Bool.true_eq_false.mp (h o ho)
  · intro h o ho
    rw [h] at ho
    exact absurd ho (List.not_mem_nil o)

theorem identifies_file_iff (moves : List Move) (move : Move) :
    departureIdentifies moves move (fun o => (o.from_ &&& 7) == (move.from_ &&& 7)) ↔
      (moves.filter (fun other =>
        other.from_ != move.from_ && other.to_ == move.to_ &&
          spaceGetType other.what == spaceGetType move.what)).all
        (fun other => (other.from_ &&& 7) != (move.from_ &&& 7)) = true := by
  rw [departureIdentifies_iff_similar, List.all_eq_true]
  constructor
  · intro h o ho
    have := h o ho
    simp only [bne_iff_ne, ne_eq]
    intro hc
    rw [show ((o.from_ &&& 7) == (move.from_ &&& 7)) = true by simp [hc]] at this
    exact Bool.true_eq_false.mp this
  · intro h o ho
    have := h o ho
    simp only [bne_iff_ne, ne_eq] at this
    simp [this]

theorem identifies_rank_iff (moves : List Move) (move : Move) :
    departureIdentifies moves move (fun o => (o.from_ >>> 4) == (move.from_ >>> 4)) ↔
      (moves.filter (fun other =>
        other.from_ != move.from_ && other.to_ == move.to_ &&
          spaceGetType other.what == spaceGetType move.what)).all
        (fun other => (other.from_ >>> 4) != (move.from_ >>> 4)) = true := by
  rw [departureIdentifies_iff_similar, List.all_eq_true]
  constructor
  · intro h o ho
    have := h o ho
    simp only [bne_iff_ne, ne_eq]
    intro hc
    rw [show ((o.from_ >>> 4) == (move.from_ >>> 4)) = true by simp [hc]] at this
    exact Bool.true_eq_false.mp this
  · intro h o ho
    have := h o ho
    simp only [bne_iff_ne, ne_eq] at this
    simp [this]

theorem getDeparture_eq_spec_part (moves : List Move) (move : Move) :
    getDeparture moves move = specDeparture moves move := by
  unfold getDeparture specDeparture
  by_cases hp : spaceGetType move.what = PIECETYPE_PAWN ∧ move.capture ≠ 0
  · rw [if_pos hp, if_pos hp]
  · rw [if_neg hp, if_neg hp]
    simp only [propext (identifies_empty_iff moves move),
      propext (identifies_file_iff moves move),
      propext (identifies_rank_iff moves move)]

/-- C6: `_getDeparture` chooses the departure disambiguation as the
shortest hint that uniquely identifies the move among same-piece-type
moves to the same destination, in the preference order empty, file
letter, rank digit, full square (equality with the spec-side chooser
`specDeparture`); pawn captures always yield the departure file; and
when both a same-file and a same-rank twin exist, the full source
square is emitted. -/
theorem getDeparture_shortest_unique (moves : List Move) (move : Move) :
    getDeparture moves move = specDeparture moves move ∧
    (spaceGetType move.what = PIECETYPE_PAWN → move.capture ≠ 0 →
      getDeparture moves move = String.mk [FILES.getD (move.from_ &&& 7) 'a']) ∧
    ((∃ o ∈ moves, o.from_ ≠ move.from_ ∧ o.to_ = move.to_ ∧
        spaceGetType o.what = spaceGetType move.what ∧ o.from_ &&& 7 = move.from_ &&& 7) →
      (∃ o ∈ moves, o.from_ ≠ move.from_ ∧ o.to_ = move.to_ ∧
        spaceGetType o.what = spaceGetType move.what ∧ o.from_ >>> 4 = move.from_ >>> 4) →
      ¬(spaceGetType move.what = PIECETYPE_PAWN ∧ move.capture ≠ 0) →
      getDeparture moves move =
        String.mk [FILES.getD (move.from_ &&& 7) 'a', RANKS.getD (move.from_ >>> 4) '1']) := by
  refine ⟨getDeparture_eq_spec_part moves move, ?_, ?_⟩
  · intro h1 h2
    unfold getDeparture
    rw [if_pos ⟨h1, h2⟩]
  · intro hfile hrank hp
    obtain ⟨of, hofmem, hofne, hofto, hofty, hoffile⟩ := hfile
    obtain ⟨og, hogmem, hogne, hogto, hogty, hogrank⟩ := hrank
    have hofsim : of ∈ moves.filter (fun other =>
        other.from_ != move.from_ && other.to_ == move.to_ &&
          spaceGetType other.what == spaceGetType move.what) := by
      rw [List.mem_filter]
      exact ⟨hofmem, by simp [hofne, hofto, hofty]⟩
    have hogsim : og ∈ moves.filter (fun other =>
        other.from_ != move.from_ && other.to_ == move.to_ &&
          spaceGetType other.what == spaceGetType move.what) := by
      rw [List.mem_filter]
      exact ⟨hogmem, by simp [hogne, hogto, hogty]⟩
    unfold getDeparture
    rw [if_neg hp]
    have h0 : ¬((moves.filter (fun other =>
        other.from_ != move.from_ && other.to_ == move.to_ &&
          spaceGetType other.what == spaceGetType move.what)).isEmpty = true) := by
      rw [List.isEmpty_iff]
      intro he
      rw [he] at hofsim
      exact absurd hofsim (List.not_mem_nil of)
    have h1 : ¬((moves.filter (fun other =>
        other.from_ != move.from_ && other.to_ == move.to_ &&
          spaceGetType other.what == spaceGetType move.what)).all
        (fun other => (other.from_ &&& 7) != (move.from_ &&& 7)) = true) := by
      intro hall
      have := List.all_eq_true.mp hall of hofsim
      simp [hoffile] at this
    have h2 : ¬((moves.filter (fun other =>
        other.from_ != move.from_ && other.to_ == move.to_ &&
          spaceGetType other.what == spaceGetType move.what)).all
        (fun other => (other.from_ >>> 4) != (move.from_ >>> 4)) = true) := by
      intro hall
      have := List.all_eq_true.mp hall og hogsim
      simp [hogrank] at this
    rw [if_neg h0, if_neg h1, if_neg h2]

/-- Witness for C6: a queen move d1→d4 with twins on d8 (same file)
and a1 (same rank) is rendered with the full source square. -/
theorem getDeparture_shortest_unique_witness :
    getDeparture
        [createSimpleMove 13 0x03 0x33 ⟨0, 1, 0x88, 0, 0⟩,
          createSimpleMove 13 0x73 0x33 ⟨0, 1, 0x88, 0, 0⟩,
          createSimpleMove 13 0x00 0x33 ⟨0, 1, 0x88, 0, 0⟩]
        (createSimpleMove 13 0x03 0x33 ⟨0, 1, 0x88, 0, 0⟩) =
      String.mk ['d', '1'] := by
  have h := (getDeparture_shortest_unique
    [createSimpleMove 13 0x03 0x33 ⟨0, 1, 0x88, 0, 0⟩,
      createSimpleMove 13 0x73 0x33 ⟨0, 1, 0x88, 0, 0⟩,
      createSimpleMove 13 0x00 0x33 ⟨0, 1, 0x88, 0, 0⟩]
    (createSimpleMove 13 0x03 0x33 ⟨0, 1, 0x88, 0, 0⟩)).2.2
    (by decide) (by decide) (by decide)
  simpa using h

/-! ## C1: the apply/revert round trip

Infrastructure: the piece-list invariant of `board.ts`, preservation
by `Position.set`, and the pointwise board restoration. -/

def OnBoard (i : Nat) : Prop := i < 128 ∧ i &&& 0x88 = 0

instance (i : Nat) : Decidable (OnBoard i) := by
  unfold OnBoard
  infer_instance

def PieceListOk (p : Position) : Prop :=
  p.board.length = 128 ∧ p.pieceList.Nodup ∧
    (∀ i ∈ p.pieceList, OnBoard i) ∧
    (∀ i, i < 128 → (p.board.getD i 0 ≠ 0 ↔ i ∈ p.pieceList))

instance (p : Position) : Decidable (PieceListOk p) := by
  unfold PieceListOk
  infer_instance

theorem getD_set_self (l : List Nat) (i v : Nat) (h : i < l.length) :
    (l.set i v).getD i 0 = v := by
  rw [List.getD_eq_getElem?_getD, List.getElem?_set_eq_of_lt v h]
  rfl

theorem getD_set_ne (l : List Nat) (i j v : Nat) (h : i ≠ j) :
    (l.set i v).getD j 0 = l.getD j 0 := by
  rw [List.getD_eq_getElem?_getD, List.getElem?_set_ne h, ← List.getD_eq_getElem?_getD]

theorem getD_eq_zero_of_ge (l : List Nat) (i : Nat) (h : l.length ≤ i) :
    l.getD i 0 = 0 := by
  rw [List.getD_eq_getElem?_getD, List.getElem?_eq_none (by omega)]
  rfl

theorem findIdx?_spec (p : Nat → Bool) (l : List Nat) (i : Nat)
    (h : l.findIdx? p = some i) :
    i < l.length ∧ ∃ x, l.get? i = some x ∧ p x := by
  induction l generalizing i with
  | nil => simp [List.findIdx?] at h
  | cons a t ih =>
    rw [List.findIdx?_cons] at h
    by_cases hp : p a
    · simp [hp] at h
      subst h
      simp [hp]
    · simp [hp] at h
      obtain ⟨j, hj, rfl⟩ := h
      obtain ⟨h1, x, h2, h3⟩ := ih _ hj
      refine ⟨by simp only [List.length_cons]; omega, x, ?_, h3⟩
      simpa using h2

theorem findIdx?_isSome_of_mem (l : List Nat) (idx : Nat) (hmem : idx ∈ l) :
    ∃ i, l.findIdx? (fun c => c == idx) = some i := by
  cases h : l.findIdx? (fun c => c == idx) with
  | some i => exact ⟨i, rfl⟩
  | none =>
    rw [List.findIdx?_eq_none_iff] at h
    have := h idx hmem
    simp at this

theorem pieceListRemove_perm (l : List Nat) (idx : Nat) (hnd : l.Nodup)
    (hmem : idx ∈ l) : (pieceListRemove l idx).Perm (l.erase idx) := by
  obtain ⟨i, hfind⟩ := findIdx?_isSome_of_mem l idx hmem
  obtain ⟨hilen, x, hget, hx⟩ := findIdx?_spec _ _ _ hfind
  simp only [beq_iff_eq] at hx
  have hlpos : 0 < l.length := List.length_pos.mpr (List.ne_nil_of_mem hmem)
  have hgetelem : l[i] = idx := by
    rw [List.get?_eq_getElem?, List.getElem?_eq_getElem hilen] at hget
    rw [← hx]
    exact Option.some.inj hget
  have herase : l.erase idx = l.take i ++ l.drop (i + 1) := by
    rw [← hgetelem, hnd.erase_getElem i hilen, List.eraseIdx_eq_take_drop_succ]
  unfold pieceListRemove
  simp only [hfind]
  by_cases hi : i = l.length - 1
  · rw [if_pos hi, herase, List.dropLast_eq_take, hi]
    have hdrop0 : l.drop (l.length - 1 + 1) = [] := by
      apply List.drop_eq_nil_of_le
      omega
    rw [hdrop0, List.append_nil]
  · rw [if_neg hi]
    have hlt : l.length - 1 < l.length := by omega
    have hlast : l.getD (l.length - 1) 0 = l[l.length - 1] := by
      rw [List.getD_eq_getElem?_getD, List.getElem?_eq_getElem hlt]
      rfl
    rw [hlast, List.set_eq_take_cons_drop _ hilen]
    have hB : l.drop (i + 1) ≠ [] := by
      intro hB0
      have := congrArg List.length hB0
      simp only [List.length_drop, List.length_nil] at this
      omega
    rw [List.dropLast_append_cons, List.dropLast_cons_of_ne_nil hB, herase]
    apply List.Perm.append_left
    have hlastB : (l.drop (i + 1)).getLast hB = l[l.length - 1] := by
      rw [List.getLast_drop hB]
      exact List.getLast_eq_getElem l _
    have hsplit : (l.drop (i + 1)).dropLast ++ [l[l.length - 1]] = l.drop (i + 1) := by
      rw [← hlastB]
      exact List.dropLast_append_getLast hB
    have hperm := (List.perm_append_singleton l[l.length - 1]
      (l.drop (i + 1)).dropLast).symm
    rw [hsplit] at hperm
    exact hperm

theorem pieceListRemove_mem (l : List Nat) (idx : Nat) (hnd : l.Nodup)
    (hmem : idx ∈ l) (x : Nat) :
    x ∈ pieceListRemove l idx ↔ x ≠ idx ∧ x ∈ l := by
  rw [(pieceListRemove_perm l idx hnd hmem).mem_iff]
  exact List.Nodup.mem_erase_iff hnd

theorem pieceListRemove_nodup (l : List Nat) (idx : Nat) (hnd : l.Nodup)
    (hmem : idx ∈ l) : (pieceListRemove l idx).Nodup :=
  (pieceListRemove_perm l idx hnd hmem).nodup_iff.mpr (hnd.erase idx)

theorem pieceListOk_set (p : Position) (idx sp : Nat) (hok : PieceListOk p)
    (hob : OnBoard idx) : PieceListOk (p.set idx sp) := by
  obtain ⟨hlen, hnd, hobm, hiff⟩ := hok
  obtain ⟨hidx, hidx88⟩ := hob
  have hidxlen : idx < p.board.length := by omega
  unfold Position.set PieceListOk
  dsimp only
  by_cases h1 : p.board.getD idx 0 = 0 ∧ sp ≠ 0
  · rw [if_pos h1]
    have hnotmem : idx ∉ p.pieceList := by
      intro hc
      exact ((hiff idx hidx).mpr hc) h1.1
    refine ⟨by simp [hlen], ?_, ?_, ?_⟩
    · simp [List.nodup_append, hnd, hnotmem]
    · intro i hi
      rcases List.mem_append.mp hi with h | h
      · exact hobm i h
      · rw [List.mem_singleton] at h
        subst h
        exact ⟨hidx, hidx88⟩
    · intro i hi
      by_cases hieq : i = idx
      · subst hieq
        rw [getD_set_self _ _ _ hidxlen]
        simp [h1.2, hnotmem]
      · rw [getD_set_ne _ _ _ _ (Ne.symm hieq)]
        rw [hiff i hi]
        simp [hieq]
  · rw [if_neg h1]
    by_cases h2 : p.board.getD idx 0 ≠ 0 ∧ sp = 0
    · rw [if_pos h2]
      have hmem : idx ∈ p.pieceList := (hiff idx hidx).mp h2.1
      refine ⟨by simp [hlen], pieceListRemove_nodup _ _ hnd hmem, ?_, ?_⟩
      · intro i hi
        exact hobm i ((pieceListRemove_mem _ _ hnd hmem i).mp hi).2
      · intro i hi
        rw [pieceListRemove_mem _ _ hnd hmem i]
        by_cases hieq : i = idx
        · subst hieq
          rw [getD_set_self _ _ _ hidxlen]
          simp [h2.2]
        · rw [getD_set_ne _ _ _ _ (Ne.symm hieq)]
          rw [hiff i hi]
          simp [hieq]
    · rw [if_neg h2]
      refine ⟨by simp [hlen], hnd, hobm, ?_⟩
      intro i hi
      by_cases hieq : i = idx
      · subst hieq
        rw [getD_set_self _ _ _ hidxlen, ← hiff i hi]
        push_neg at h1 h2
        constructor
        · intro hsp hget0
          exact hsp (h1 hget0)
        · intro hget
          exact h2 hget
      · rw [getD_set_ne _ _ _ _ (Ne.symm hieq)]
        exact hiff i hi

theorem getD_set_ite (l : List Nat) (j v i : Nat) (hlen : j < l.length) :
    (l.set j v).getD i 0 = if i = j then v else l.getD i 0 := by
  by_cases h : i = j
  · subst h
    rw [if_pos rfl, getD_set_self _ _ _ hlen]
  · rw [if_neg h, getD_set_ne _ _ _ _ (Ne.symm h)]

theorem set_board_proj (p : Position) (i v : Nat) :
    (p.set i v).board = p.board.set i v := rfl

theorem set_meta_proj (p : Position) (i v : Nat) :
    (p.set i v).clock = p.clock ∧ (p.set i v).moveNum = p.moveNum ∧
      (p.set i v).ep = p.ep ∧ (p.set i v).status = p.status ∧
      (p.set i v).turn = p.turn ∧ (p.set i v).castles = p.castles :=
  ⟨rfl, rfl, rfl, rfl, rfl, rfl⟩

/-- The board-array effect of `performMove` in isolation (proof
helper). -/
def boardOps (b : List Nat) (m : Move) : List Nat :=
  let color := spaceGetColor m.what
  let b1 := if m.capture ≠ 0 then b.set m.captureCoord 0 else b
  let b2 := (b1.set m.from_ 0).set m.to_ (m.what ||| 16)
  let b3 :=
    if m.castleRook ≠ 0 then
      (b2.set m.castleRookFrom 0).set m.castleRookTo (m.castleRook ||| 16)
    else b2
  if m.promote ≠ 0 then b3.set m.to_ (encodePieceSpace m.promote color true) else b3

theorem performMove_board (p : Position) (m : Move) :
    (performMove p m).board = boardOps p.board m := by
  unfold performMove boardOps
  dsimp only
  split_ifs <;> rfl

/-- The board-array effect of `revertMove` in isolation (proof
helper). -/
def revOps (b : List Nat) (m : Move) : List Nat :=
  let b1 := b.set m.from_ m.what
  let b2 := b1.set m.to_ 0
  let b3 := if m.capture ≠ 0 then b2.set m.captureCoord m.capture else b2
  if m.castleRook ≠ 0 then
    (b3.set m.castleRookTo 0).set m.castleRookFrom m.castleRook
  else b3

theorem revertMove_board (p : Position) (m : Move) :
    (revertMove p m).board = revOps p.board m := by
  unfold revertMove revOps
  dsimp only
  split_ifs <;> rfl

theorem getD_set_ite' (l : List Nat) (j v i : Nat) :
    (l.set j v).getD i 0 = if i = j ∧ j < l.length then v else l.getD i 0 := by
  by_cases h : i = j ∧ j < l.length
  · obtain ⟨rfl, hlt⟩ := h
    rw [if_pos ⟨rfl, hlt⟩, getD_set_self _ _ _ hlt]
  · rw [if_neg h]
    by_cases he : i = j
    · subst he
      have hge : l.length ≤ i := by
        by_contra hc
        exact h ⟨rfl, by omega⟩
      rw [List.set_eq_of_length_le hge]
    · rw [getD_set_ne _ _ _ _ (Ne.symm he)]

theorem length_boardOps (b : List Nat) (m : Move) (hlen : b.length = 128) :
    (boardOps b m).length = 128 := by
  unfold boardOps
  dsimp only
  split_ifs <;> simp [List.length_set, hlen]

theorem length_revOps (b : List Nat) (m : Move) (hlen : b.length = 128) :
    (revOps b m).length = 128 := by
  unfold revOps
  dsimp only
  split_ifs <;> simp [List.length_set, hlen]

theorem revOps_boardOps_getD (b : List Nat) (m : Move) (hlen : b.length = 128)
    (hfrom : m.from_ < 128) (hto : m.to_ < 128) (hne : m.from_ ≠ m.to_)
    (hwhat : b.getD m.from_ 0 = m.what)
    (hcap0 : m.capture = 0 → b.getD m.to_ 0 = 0)
    (hcap : m.capture ≠ 0 → m.captureCoord < 128 ∧ b.getD m.captureCoord 0 = m.capture ∧
      m.captureCoord ≠ m.from_ ∧ (m.captureCoord ≠ m.to_ → b.getD m.to_ 0 = 0))
    (hcas : m.castleRook ≠ 0 → m.castleRookFrom < 128 ∧ m.castleRookTo < 128 ∧
      b.getD m.castleRookFrom 0 = m.castleRook ∧ m.capture = 0 ∧
      m.castleRookFrom ≠ m.from_ ∧ m.castleRookFrom ≠ m.to_ ∧
      m.castleRookTo ≠ m.from_ ∧ m.castleRookTo ≠ m.to_ ∧
      (m.castleRookTo ≠ m.castleRookFrom → b.getD m.castleRookTo 0 = 0))
    (n : Nat) :
    (revOps (boardOps b m) m).getD n 0 = b.getD n 0 := by
  unfold revOps boardOps
  dsimp only
  by_cases hc : m.capture ≠ 0
  · have hcas0 : m.castleRook = 0 := by
      by_contra hx
      exact hc (hcas hx).2.2.2.1
    obtain ⟨hcc, hbcc, hccf, hccto⟩ := hcap hc
    simp only [hc, hcas0, ne_eq, not_true_eq_false, Bool.false_eq_true, if_false,
      not_false_eq_true, ite_false, ite_true]
    by_cases hcc2 : m.captureCoord = m.to_
    · rw [hcc2] at hbcc hccf ⊢
      by_cases hp : m.promote ≠ 0
      · rw [if_pos hp]
        simp only [getD_set_ite', List.length_set, hlen]
        split_ifs <;> subst_vars <;> simp_all
      · rw [if_neg hp]
        simp only [getD_set_ite', List.length_set, hlen]
        split_ifs <;> subst_vars <;> simp_all
    · have hto0 : b.getD m.to_ 0 = 0 := hccto hcc2
      by_cases hp : m.promote ≠ 0
      · rw [if_pos hp]
        simp only [getD_set_ite', List.length_set, hlen]
        split_ifs <;> subst_vars <;> simp_all
      · rw [if_neg hp]
        simp only [getD_set_ite', List.length_set, hlen]
        split_ifs <;> subst_vars <;> simp_all
  · have hc0 : m.capture = 0 := by omega
    have hto0 : b.getD m.to_ 0 = 0 := hcap0 hc0
    by_cases hcs : m.castleRook ≠ 0
    · obtain ⟨hrf, hrt, hbrf, _, hrff, hrft, hrtf, hrtt, hrt0⟩ := hcas hcs
      simp only [hc0, hcs, ne_eq, not_true_eq_false, Bool.false_eq_true, if_false,
        not_false_eq_true, ite_false, ite_true]
      by_cases hrr : m.castleRookTo = m.castleRookFrom
      · by_cases hp : m.promote ≠ 0
        · rw [if_pos hp]
          simp only [getD_set_ite', List.length_set, hlen]
          split_ifs <;> subst_vars <;> simp_all
        · rw [if_neg hp]
          simp only [getD_set_ite', List.length_set, hlen]
          split_ifs <;> subst_vars <;> simp_all
      · have hbrt0 : b.getD m.castleRookTo 0 = 0 := hrt0 hrr
        by_cases hp : m.promote ≠ 0
        · rw [if_pos hp]
          simp only [getD_set_ite', List.length_set, hlen]
          split_ifs <;> subst_vars <;> simp_all
        · rw [if_neg hp]
          simp only [getD_set_ite', List.length_set, hlen]
          split_ifs <;> subst_vars <;> simp_all
    · have hcs0 : m.castleRook = 0 := by omega
      simp only [hc0, hcs0, ne_eq, not_true_eq_false, Bool.false_eq_true, if_false,
        not_false_eq_true, ite_false, ite_true]
      by_cases hp : m.promote ≠ 0
      · rw [if_pos hp]
        simp only [getD_set_ite', List.length_set, hlen]
        split_ifs <;> subst_vars <;> simp_all
      · rw [if_neg hp]
        simp only [getD_set_ite', List.length_set, hlen]
        split_ifs <;> subst_vars <;> simp_all

/-- The coordinate bounds `performMove`/`revertMove` touch. -/
def MoveBounds (m : Move) : Prop :=
  OnBoard m.from_ ∧ OnBoard m.to_ ∧
    (m.capture ≠ 0 → OnBoard m.captureCoord) ∧
    (m.castleRook ≠ 0 → OnBoard m.castleRookFrom ∧ OnBoard m.castleRookTo)

instance (m : Move) : Decidable (MoveBounds m) := by
  unfold MoveBounds
  infer_instance

theorem pieceListOk_of_same (q q' : Position) (hb : q'.board = q.board)
    (hp : q'.pieceList = q.pieceList) (h : PieceListOk q) : PieceListOk q' := by
  unfold PieceListOk at *
  rw [hb, hp]
  exact h

/-- The board/piece-list part of `performMove` as a `Position`
transformation (proof helper). -/
def posOps (p : Position) (m : Move) : Position :=
  let p1 := if m.capture ≠ 0 then p.set m.captureCoord 0 else p
  let p2 := (p1.set m.from_ 0).set m.to_ (m.what ||| 16)
  let p3 :=
    if m.castleRook ≠ 0 then
      (p2.set m.castleRookFrom 0).set m.castleRookTo (m.castleRook ||| 16)
    else p2
  if m.promote ≠ 0 then
    p3.set m.to_ (encodePieceSpace m.promote (spaceGetColor m.what) true)
  else p3

theorem performMove_posOps (p : Position) (m : Move) :
    (performMove p m).board = (posOps p m).board ∧
      (performMove p m).pieceList = (posOps p m).pieceList := by
  unfold performMove posOps
  dsimp only
  split_ifs <;> exact ⟨rfl, rfl⟩

/-- The board/piece-list part of `revertMove` as a `Position`
transformation (proof helper). -/
def posOpsRev (p : Position) (m : Move) : Position :=
  let p1 := p.set m.from_ m.what
  let p2 := p1.set m.to_ 0
  let p3 := if m.capture ≠ 0 then p2.set m.captureCoord m.capture else p2
  if m.castleRook ≠ 0 then
    (p3.set m.castleRookTo 0).set m.castleRookFrom m.castleRook
  else p3

theorem revertMove_posOps (p : Position) (m : Move) :
    (revertMove p m).board = (posOpsRev p m).board ∧
      (revertMove p m).pieceList = (posOpsRev p m).pieceList := by
  unfold revertMove posOpsRev
  dsimp only
  split_ifs <;> exact ⟨rfl, rfl⟩

theorem pieceListOk_posOps (p : Position) (m : Move) (hok : PieceListOk p)
    (hb : MoveBounds m) : PieceListOk (posOps p m) := by
  obtain ⟨hf, ht, hcc, hcas⟩ := hb
  unfold posOps
  dsimp only
  have h1 : PieceListOk (if m.capture ≠ 0 then p.set m.captureCoord 0 else p) := by
    by_cases h : m.capture ≠ 0
    · rw [if_pos h]
      exact pieceListOk_set _ _ _ hok (hcc h)
    · rw [if_neg h]
      exact hok
  have h2 := pieceListOk_set _ m.to_ (m.what ||| 16)
    (pieceListOk_set _ m.from_ 0 h1 hf) ht
  have h3 : PieceListOk (if m.castleRook ≠ 0 then
      ((((if m.capture ≠ 0 then p.set m.captureCoord 0 else p).set m.from_ 0).set
        m.to_ (m.what ||| 16)).set m.castleRookFrom 0).set m.castleRookTo
        (m.castleRook ||| 16)
      else ((if m.capture ≠ 0 then p.set m.captureCoord 0 else p).set m.from_ 0).set
        m.to_ (m.what ||| 16)) := by
    by_cases h : m.castleRook ≠ 0
    · rw [if_pos h]
      exact pieceListOk_set _ _ _ (pieceListOk_set _ _ _ h2 (hcas h).1) (hcas h).2
    · rw [if_neg h]
      exact h2
  by_cases h : m.promote ≠ 0
  · rw [if_pos h]
    exact pieceListOk_set _ _ _ h3 ht
  · rw [if_neg h]
    exact h3

theorem pieceListOk_posOpsRev (p : Position) (m : Move) (hok : PieceListOk p)
    (hb : MoveBounds m) : PieceListOk (posOpsRev p m) := by
  obtain ⟨hf, ht, hcc, hcas⟩ := hb
  unfold posOpsRev
  dsimp only
  have h2 := pieceListOk_set _ m.to_ 0 (pieceListOk_set _ m.from_ m.what hok hf) ht
  have h3 : PieceListOk (if m.capture ≠ 0 then
      ((p.set m.from_ m.what).set m.to_ 0).set m.captureCoord m.capture
      else (p.set m.from_ m.what).set m.to_ 0) := by
    by_cases h : m.capture ≠ 0
    · rw [if_pos h]
      exact pieceListOk_set _ _ _ h2 (hcc h)
    · rw [if_neg h]
      exact h2
  by_cases h : m.castleRook ≠ 0
  · rw [if_pos h]
    exact pieceListOk_set _ _ _ (pieceListOk_set _ _ _ h3 (hcas h).2) (hcas h).1
  · rw [if_neg h]
    exact h3

theorem pieceListOk_performMove (p : Position) (m : Move) (hok : PieceListOk p)
    (hb : MoveBounds m) : PieceListOk (performMove p m) :=
  pieceListOk_of_same _ _ (performMove_posOps p m).1 (performMove_posOps p m).2
    (pieceListOk_posOps p m hok hb)

theorem pieceListOk_revertMove (p : Position) (m : Move) (hok : PieceListOk p)
    (hb : MoveBounds m) : PieceListOk (revertMove p m) :=
  pieceListOk_of_same _ _ (revertMove_posOps p m).1 (revertMove_posOps p m).2
    (pieceListOk_posOpsRev p m hok hb)

theorem list_eq_of_getD (l1 l2 : List Nat) (h1 : l1.length = 128)
    (h2 : l2.length = 128) (h : ∀ n, l1.getD n 0 = l2.getD n 0) : l1 = l2 := by
  apply List.ext_get?_iff.2
  intro n
  by_cases hn : n < 128
  · have e1 : l1.get? n = some (l1.getD n 0) := by
      rw [List.getD_eq_getElem?_getD, List.get?_eq_getElem?,
        List.getElem?_eq_getElem (show n < l1.length by omega)]
      rfl
    have e2 : l2.get? n = some (l2.getD n 0) := by
      rw [List.getD_eq_getElem?_getD, List.get?_eq_getElem?,
        List.getElem?_eq_getElem (show n < l2.length by omega)]
      rfl
    rw [e1, e2, h n]
  · rw [List.get?_eq_getElem?, List.get?_eq_getElem?,
      List.getElem?_eq_none (by omega), List.getElem?_eq_none (by omega)]

theorem revertMove_turn (p : Position) (m : Move) :
    (revertMove p m).turn = 8 - p.turn := by
  unfold revertMove
  dsimp only
  split_ifs <;> rfl

/-- The structural facts about a position and a move that every
generator-produced legal move satisfies, and under which the
apply/revert round trip is provable: the piece-list invariant, a
faithful `prior` snapshot, the moved piece sitting on `from`, a
consistent capture record, and castle squares that are pairwise
distinct (the last point rules out the Chess960 overlap castles where
king and rook squares coincide, on which `revertMove`'s write order
loses a piece). -/
def LegalShape (p : Position) (m : Move) : Prop :=
  PieceListOk p ∧ m.prior = p.getPriorState ∧ p.turn ≤ 8 ∧
    OnBoard m.from_ ∧ OnBoard m.to_ ∧ m.from_ ≠ m.to_ ∧
    p.get m.from_ = m.what ∧ m.what ≠ 0 ∧
    (m.capture = 0 → p.get m.to_ = 0) ∧
    (m.capture ≠ 0 → OnBoard m.captureCoord ∧ p.get m.captureCoord = m.capture ∧
      m.captureCoord ≠ m.from_ ∧ (m.captureCoord ≠ m.to_ → p.get m.to_ = 0)) ∧
    (m.castleRook ≠ 0 → OnBoard m.castleRookFrom ∧ OnBoard m.castleRookTo ∧
      p.get m.castleRookFrom = m.castleRook ∧ m.capture = 0 ∧
      m.castleRookFrom ≠ m.from_ ∧ m.castleRookFrom ≠ m.to_ ∧
      m.castleRookTo ≠ m.from_ ∧ m.castleRookTo ≠ m.to_ ∧
      (m.castleRookTo ≠ m.castleRookFrom → p.get m.castleRookTo = 0))

instance (p : Position) (m : Move) : Decidable (LegalShape p m) := by
  unfold LegalShape
  infer_instance

/-- C1 as amended: applying a legal move with `performMove` and
reverting it with `revertMove` restores the board array, the attack
map (every per-square, per-color attacker count), the castle rights,
the en-passant target, the clock, the move number, the status and the
turn exactly, and restores the piece list up to order (a permutation
with exactly the original members); the order itself is not restored
(see the counterexample), because `set()` removes by swap-with-last. -/
theorem applyRevert_roundtrip (p : Position) (m : Move) (h : LegalShape p m) :
    (revertMove (performMove p m) m).board = p.board ∧
      (revertMove (performMove p m) m).pieceList.Perm p.pieceList ∧
      (∀ sq c, attackersCount (revertMove (performMove p m) m).board sq c =
        attackersCount p.board sq c) ∧
      (revertMove (performMove p m) m).castles = p.castles ∧
      (revertMove (performMove p m) m).ep = p.ep ∧
      (revertMove (performMove p m) m).clock = p.clock ∧
      (revertMove (performMove p m) m).moveNum = p.moveNum ∧
      (revertMove (performMove p m) m).status = p.status ∧
      (revertMove (performMove p m) m).turn = p.turn := by
  obtain ⟨hok, hprior, hturn8, hf, ht, hne, hwhat, hw0, hcap0, hcap, hcas⟩ := h
  have hlen : p.board.length = 128 := hok.1
  have hbounds : MoveBounds m := by
    refine ⟨hf, ht, fun hc => (hcap hc).1, fun hc => ⟨(hcas hc).1, (hcas hc).2.1⟩⟩
  have hboard : (revertMove (performMove p m) m).board = p.board := by
    rw [revertMove_board, performMove_board]
    apply list_eq_of_getD _ _ (length_revOps _ _ (length_boardOps _ _ hlen)) hlen
    intro n
    exact revOps_boardOps_getD p.board m hlen hf.1 ht.1 hne hwhat hcap0
      (fun hc => ⟨((hcap hc).1).1, (hcap hc).2.1, (hcap hc).2.2.1, (hcap hc).2.2.2⟩)
      (fun hc => ⟨((hcas hc).1).1, ((hcas hc).2.1).1, (hcas hc).2.2.1,
        (hcas hc).2.2.2.1, (hcas hc).2.2.2.2.1, (hcas hc).2.2.2.2.2.1,
        (hcas hc).2.2.2.2.2.2.1, (hcas hc).2.2.2.2.2.2.2.1,
        (hcas hc).2.2.2.2.2.2.2.2⟩) n
  have hok2 : PieceListOk (revertMove (performMove p m) m) :=
    pieceListOk_revertMove _ _ (pieceListOk_performMove _ _ hok hbounds) hbounds
  refine ⟨hboard, ?_, ?_, ?_, ?_, ?_, ?_, ?_, ?_⟩
  · rw [List.perm_ext_iff_of_nodup hok2.2.1 hok.2.1]
    intro a
    constructor
    · intro ha
      have halt : a < 128 := (hok2.2.2.1 a ha).1
      have := (hok2.2.2.2 a halt).mpr ha
      rw [hboard] at this
      exact (hok.2.2.2 a halt).mp this
    · intro ha
      have halt : a < 128 := (hok.2.2.1 a ha).1
      have := (hok.2.2.2 a halt).mpr ha
      rw [← hboard] at this
      exact (hok2.2.2.2 a halt).mp this
  · intro sq c
    rw [hboard]
  · show m.prior.castles = p.castles
    rw [hprior]
    rfl
  · show m.prior.ep = p.ep
    rw [hprior]
    rfl
  · show m.prior.clock = p.clock
    rw [hprior]
    rfl
  · show m.prior.moveNum = p.moveNum
    rw [hprior]
    rfl
  · show m.prior.status = p.status
    rw [hprior]
    rfl
  · rw [revertMove_turn]
    have h1 : (performMove p m).turn = 8 - p.turn := rfl
    rw [h1]
    omega

/-- White rook b1, white king a1, black king h8 (piece list in that
insertion order); no castle rights; white to move. -/
def rookListPos : Position :=
  { placePieces [(0x01, 4), (0x00, 6), (0x77, 30)] with castles := 0x8888 }

set_option maxRecDepth 10000 in
/-- C1 counterexample: in a legal position with piece list
`[b1-rook, a1-king, h8-king]`, the legal rook move b1→b2 (a member of
the generator's output) followed by its reversion restores the board
array exactly but permutes the piece list to `[h8, a1, b1]` — the
position is not equal to the original in every component as the claim
states. -/
theorem applyRevert_pieceList_order_cex :
    createSimpleMove 4 0x01 0x11 rookListPos.getPriorState ∈
        listAllValidMovesP rookListPos COLOR_WHITE ∧
      (revertMove (performMove rookListPos
          (createSimpleMove 4 0x01 0x11 rookListPos.getPriorState))
          (createSimpleMove 4 0x01 0x11 rookListPos.getPriorState)).board =
        rookListPos.board ∧
      (revertMove (performMove rookListPos
          (createSimpleMove 4 0x01 0x11 rookListPos.getPriorState))
          (createSimpleMove 4 0x01 0x11 rookListPos.getPriorState)).pieceList ≠
        rookListPos.pieceList := by
  refine ⟨by decide, by decide, by decide⟩

set_option maxRecDepth 10000 in
/-- Witness for C1 (amended) at the rook-move position. -/
theorem applyRevert_roundtrip_witness :
    LegalShape rookListPos (createSimpleMove 4 0x01 0x11 rookListPos.getPriorState) ∧
      (revertMove (performMove rookListPos
          (createSimpleMove 4 0x01 0x11 rookListPos.getPriorState))
          (createSimpleMove 4 0x01 0x11 rookListPos.getPriorState)).pieceList.Perm
        rookListPos.pieceList :=
  ⟨by decide,
    (applyRevert_roundtrip rookListPos
      (createSimpleMove 4 0x01 0x11 rookListPos.getPriorState) (by decide)).2.1⟩

/-! ## C4: the castle guards -/

theorem mem_range'_iff (s n i : Nat) : i ∈ List.range' s n ↔ s ≤ i ∧ i < s + n := by
  rw [List.mem_range']
  constructor
  · rintro ⟨j, hj, rfl⟩
    omega
  · intro ⟨h1, h2⟩
    exact ⟨i - s, by omega, by omega⟩

theorem onBoard_mod16 (x : Nat) : OnBoard x ↔ x < 128 ∧ x % 16 < 8 := by
  unfold OnBoard
  have h : ∀ y, y < 128 → (y &&& 0x88 = 0 ↔ y % 16 < 8) := by decide
  constructor
  · intro ⟨h1, h2⟩
    exact ⟨h1, (h x h1).mp h2⟩
  · intro ⟨h1, h2⟩
    exact ⟨h1, (h x h1).mpr h2⟩

theorem shiftRight4_eq_div (x : Nat) : x >>> 4 = x / 16 := by
  rw [Nat.shiftRight_eq_div_pow]

theorem onBoard_between (a b i : Nat) (ha : OnBoard a) (hb : OnBoard b)
    (hrank : a >>> 4 = b >>> 4) (h1 : min a b ≤ i) (h2 : i ≤ max a b) : OnBoard i := by
  rw [onBoard_mod16] at ha hb ⊢
  rw [shiftRight4_eq_div, shiftRight4_eq_div] at hrank
  omega

theorem pieceListOk_foldl_set (idxs : List Nat) (v : Nat) (q : Position)
    (hok : PieceListOk q) (hall : ∀ i ∈ idxs, OnBoard i) :
    PieceListOk (idxs.foldl (fun q j => q.set j v) q) := by
  induction idxs generalizing q with
  | nil => exact hok
  | cons a rest ih =>
    exact ih (q.set a v) (pieceListOk_set q a v hok (hall a (by simp)))
      (fun i hi => hall i (by simp [hi]))

theorem foldl_set_get (idxs : List Nat) (v : Nat) (q : Position) (i : Nat)
    (hlen : q.board.length = 128) (hi : i < 128) (hall : ∀ j ∈ idxs, j < 128) :
    (idxs.foldl (fun q j => q.set j v) q).get i =
      if i ∈ idxs then v else q.get i := by
  induction idxs generalizing q with
  | nil => simp
  | cons a rest ih =>
    have hlen1 : (q.set a v).board.length = 128 := by
      show (q.board.set a v).length = 128
      simp [hlen]
    rw [List.foldl_cons, ih (q.set a v) hlen1 (fun j hj => hall j (by simp [hj]))]
    by_cases hm : i ∈ rest
    · rw [if_pos hm, if_pos (List.mem_cons_of_mem a hm)]
    · rw [if_neg hm]
      by_cases he : i = a
      · subst he
        rw [if_pos (List.mem_cons_self i rest)]
        show (q.board.set i v).getD i 0 = v
        exact getD_set_self _ _ _ (by omega)
      · rw [if_neg (by
          intro hc
          rcases List.mem_cons.mp hc with h | h
          · exact he h
          · exact hm h)]
        show (q.board.set a v).getD i 0 = q.board.getD i 0
        exact getD_set_ne _ _ _ _ (Ne.symm he)

/-- C4: a castle move passes `_tryCastle`'s guards only if (a) every
square in the inclusive min/max range of the four castle squares is
empty apart from the king's and the rook's origin, and (b) no square
of the king's travel (inclusive) is attacked by the enemy on the
board with king and rook blanked and phantom kings placed along the
travel — so a castle out of, through, or into check is never
produced. -/
theorem tryCastle_guards (p : Position) (out : List Move) (mv : Move)
    (hok : PieceListOk p) (hking : spaceGetType mv.what = PIECETYPE_KING)
    (hf : OnBoard mv.from_) (ht : OnBoard mv.to_)
    (hrank : mv.from_ >>> 4 = mv.to_ >>> 4)
    (hrf : OnBoard mv.castleRookFrom)
    (hout : tryCastle p out mv ≠ out) :
    (∀ i, min (min mv.castleRookFrom mv.castleRookTo) (min mv.from_ mv.to_) ≤ i →
        i ≤ max (max mv.castleRookFrom mv.castleRookTo) (max mv.from_ mv.to_) →
        i ≠ mv.from_ → i ≠ mv.castleRookFrom → p.get i = 0) ∧
      (∀ i, min mv.from_ mv.to_ ≤ i → i ≤ max mv.from_ mv.to_ →
        attackMapIsAttacked (castlePhantom p mv) i (8 - spaceGetColor mv.what) = false) := by
  unfold tryCastle at hout
  dsimp only at hout
  by_cases h1 : (List.range'
      (min (min mv.castleRookFrom mv.castleRookTo) (min mv.from_ mv.to_))
      (max (max mv.castleRookFrom mv.castleRookTo) (max mv.from_ mv.to_) + 1 -
        min (min mv.castleRookFrom mv.castleRookTo) (min mv.from_ mv.to_))).all
      (fun idx => idx == mv.from_ || idx == mv.castleRookFrom || p.get idx == 0) = true
  · rw [if_pos h1] at hout
    by_cases h2 : kingInDanger (castlePhantom p mv) (spaceGetColor mv.what) = true
    · rw [if_pos h2] at hout
      exact absurd rfl hout
    · have h2f : kingInDanger (castlePhantom p mv) (spaceGetColor mv.what) = false := by
        simpa using h2
      constructor
      · intro i hlo hhi hif hirf
        have hmem : i ∈ List.range'
            (min (min mv.castleRookFrom mv.castleRookTo) (min mv.from_ mv.to_))
            (max (max mv.castleRookFrom mv.castleRookTo) (max mv.from_ mv.to_) + 1 -
              min (min mv.castleRookFrom mv.castleRookTo) (min mv.from_ mv.to_)) :=
          (mem_range'_iff _ _ _).mpr ⟨hlo, by omega⟩
        have hcond := List.all_eq_true.mp h1 _ hmem
        rw [Bool.or_eq_true, Bool.or_eq_true] at hcond
        rcases hcond with (h | h) | h
        · exact absurd (by simpa using h) hif
        · exact absurd (by simpa using h) hirf
        · simpa using h
      · intro i hlo hhi
        have hob : OnBoard i := onBoard_between mv.from_ mv.to_ i hf ht hrank hlo hhi
        have hokc : PieceListOk (castleCleared p mv) :=
          pieceListOk_set _ _ _ (pieceListOk_set _ _ _ hok hf) hrf
        have hallpath : ∀ j ∈ List.range' (min mv.from_ mv.to_)
            (max mv.from_ mv.to_ + 1 - min mv.from_ mv.to_), OnBoard j := by
          intro j hj
          rw [mem_range'_iff] at hj
          exact onBoard_between _ _ _ hf ht hrank hj.1 (by omega)
        have hokph : PieceListOk (castlePhantom p mv) :=
          pieceListOk_foldl_set _ _ _ hokc hallpath
        have hget : (castlePhantom p mv).get i = mv.what := by
          unfold castlePhantom
          rw [foldl_set_get _ _ _ _ hokc.1 hob.1 (fun j hj => (hallpath j hj).1)]
          rw [if_pos ((mem_range'_iff _ _ _).mpr ⟨hlo, by omega⟩)]
        have hw0 : mv.what ≠ 0 := by
          intro h0
          rw [h0] at hking
          simp [spaceGetType, PIECETYPE_KING] at hking
        have hmemp : i ∈ (castlePhantom p mv).pieceList := by
          apply (hokph.2.2.2 i hob.1).mp
          show (castlePhantom p mv).get i ≠ 0
          rw [hget]
          exact hw0
        unfold kingInDanger at h2f
        rw [List.any_eq_false] at h2f
        have hfi := h2f i hmemp
        dsimp only at hfi
        rw [hget] at hfi
        simp only [hking, PIECETYPE_KING, beq_self_eq_true, Bool.true_and,
          Bool.and_eq_true, beq_iff_eq] at hfi
        simpa using hfi
  · rw [if_neg h1] at hout
    exact absurd rfl hout

/-- White king e1, white rook h1, black king h8; only white-kingside
castling rights. -/
def castleWitPos : Position :=
  { placePieces [(0x04, 6), (0x07, 4), (0x77, 30)] with castles := 0x8887 }

/-- The kingside castle move for `castleWitPos` as `_findKingCastles`
builds it. -/
def castleWitMv : Move :=
  createCastle 6 0x04 0x06 4 0x07 0x05 castleWitPos.getPriorState

set_option maxRecDepth 10000 in
/-- Witness for C4 at the kingside castle position. -/
theorem tryCastle_guards_witness :
    (PieceListOk castleWitPos ∧ tryCastle castleWitPos [] castleWitMv ≠ []) ∧
      attackMapIsAttacked (castlePhantom castleWitPos castleWitMv) 0x05
        (8 - spaceGetColor castleWitMv.what) = false :=
  ⟨⟨by decide, by decide⟩,
    (tryCastle_guards castleWitPos [] castleWitMv (by decide) (by decide) (by decide)
      (by decide) (by decide) (by decide) (by decide)).2 0x05 (by decide) (by decide)⟩


theorem bool_eq_of_iff (a b : Bool) (h : a = true ↔ b = true) : a = b := by
  cases a <;> cases b <;> simp_all

theorem raysquares_occ_congr (b b' : List Nat)
    (hocc : ∀ x, b.getD x 0 = 0 ↔ b'.getD x 0 = 0) :
    ∀ (fuel : Nat) (idx step : Int), raysquares b idx step fuel = raysquares b' idx step fuel := by
  intro fuel
  induction fuel with
  | zero => intro idx step; rfl
  | succ n ih =>
    intro idx step
    unfold raysquares
    by_cases hoff : offBoardI (idx + step)
    · rw [if_pos hoff, if_pos hoff]
    · rw [if_neg hoff, if_neg hoff]
      by_cases hblk : b.getD (idx + step).toNat 0 = 0
      · have hblk' : b'.getD (idx + step).toNat 0 = 0 := (hocc _).mp hblk
        rw [if_neg (fun h => h hblk), if_neg (fun h => h hblk'), ih]
      · have hblk' : b'.getD (idx + step).toNat 0 ≠ 0 := fun hc => hblk ((hocc _).mpr hc)
        rw [if_pos hblk, if_pos hblk']

theorem attacksFrom_congr (b b' : List Nat) (j : Nat)
    (hocc : ∀ x, b.getD x 0 = 0 ↔ b'.getD x 0 = 0)
    (hval : ∀ x, x ≠ j → b.getD x 0 = b'.getD x 0)
    (i : Nat) (hi : i ≠ j) : attacksFrom b i = attacksFrom b' i := by
  unfold attacksFrom
  rw [hval i hi]
  have hray : ∀ (s : Int), raysquares b i s 8 = raysquares b' i s 8 := by
    intro s
    exact raysquares_occ_congr b b' hocc 8 i s
  dsimp only
  split_ifs <;> simp only [hray]

theorem attackersCount_congr_single (b b' : List Nat) (j a : Nat)
    (hocc : ∀ x, b.getD x 0 = 0 ↔ b'.getD x 0 = 0)
    (hval : ∀ x, x ≠ j → b.getD x 0 = b'.getD x 0)
    (hcolor : spaceGetColor (b.getD j 0) ≠ a ∧ spaceGetColor (b'.getD j 0) ≠ a)
    (sq : Nat) : attackersCount b sq a = attackersCount b' sq a := by
  unfold attackersCount
  congr 1
  apply List.filter_congr
  intro i _
  by_cases hij : i = j
  · subst hij
    have h1 : (spaceGetColor (b.getD i 0) == a) = false := by
      rw [beq_eq_false_iff_ne]
      exact hcolor.1
    have h2 : (spaceGetColor (b'.getD i 0) == a) = false := by
      rw [beq_eq_false_iff_ne]
      exact hcolor.2
    rw [h1, h2]
    simp
  · rw [hval i hij, attacksFrom_congr b b' j hocc hval i hij]

theorem kingInDanger_congr_members (q q' : Position) (c : Nat)
    (hb : q.board = q'.board) (hok : PieceListOk q) (hok' : PieceListOk q') :
    kingInDanger q c = kingInDanger q' c := by
  apply bool_eq_of_iff
  unfold kingInDanger
  rw [List.any_eq_true, List.any_eq_true]
  constructor
  · rintro ⟨x, hx, hfx⟩
    refine ⟨x, ?_, ?_⟩
    · have hxlt : x < 128 := (hok.2.2.1 x hx).1
      apply (hok'.2.2.2 x hxlt).mp
      rw [show q'.board = q.board from hb.symm]
      exact (hok.2.2.2 x hxlt).mpr hx
    · dsimp only at hfx ⊢
      unfold Position.get attackMapIsAttacked at hfx ⊢
      rw [show q'.board = q.board from hb.symm]
      exact hfx
  · rintro ⟨x, hx, hfx⟩
    refine ⟨x, ?_, ?_⟩
    · have hxlt : x < 128 := (hok'.2.2.1 x hx).1
      apply (hok.2.2.2 x hxlt).mp
      rw [hb]
      exact (hok'.2.2.2 x hxlt).mpr hx
    · dsimp only at hfx ⊢
      unfold Position.get attackMapIsAttacked at hfx ⊢
      rw [hb]
      exact hfx

theorem any_congr' (l : List Nat) (f g : Nat → Bool) (h : ∀ x ∈ l, f x = g x) :
    l.any f = l.any g := by
  induction l with
  | nil => rfl
  | cons a rest ih =>
    simp only [List.any_cons]
    rw [h a (by simp), ih (fun x hx => h x (by simp [hx]))]

theorem kingInDanger_congr_single (q q' : Position) (c j : Nat)
    (hpl : q.pieceList = q'.pieceList)
    (hocc : ∀ x, q.board.getD x 0 = 0 ↔ q'.board.getD x 0 = 0)
    (hval : ∀ x, x ≠ j → q.board.getD x 0 = q'.board.getD x 0)
    (hcolj : spaceGetColor (q.board.getD j 0) = spaceGetColor (q'.board.getD j 0))
    (htypj : spaceGetType (q.board.getD j 0) ≠ PIECETYPE_KING ∧
      spaceGetType (q'.board.getD j 0) ≠ PIECETYPE_KING)
    (hattj : spaceGetColor (q.board.getD j 0) ≠ 8 - c ∧
      spaceGetColor (q'.board.getD j 0) ≠ 8 - c) :
    kingInDanger q c = kingInDanger q' c := by
  unfold kingInDanger
  rw [hpl]
  apply any_congr'
  intro x _
  dsimp only
  by_cases hxj : x = j
  · subst hxj
    unfold Position.get
    have h1 : (spaceGetType (q.board.getD x 0) == PIECETYPE_KING) = false := by
      rw [beq_eq_false_iff_ne]
      exact htypj.1
    have h2 : (spaceGetType (q'.board.getD x 0) == PIECETYPE_KING) = false := by
      rw [beq_eq_false_iff_ne]
      exact htypj.2
    rw [h1, h2]
    simp
  · unfold Position.get attackMapIsAttacked
    rw [hval x hxj]
    have hcnt : attackersCount q.board x (8 - c) = attackersCount q'.board x (8 - c) :=
      attackersCount_congr_single q.board q'.board j (8 - c) hocc hval hattj x
    rw [hcnt]

theorem spaceGetColor_cases (w : Nat) : spaceGetColor w = 0 ∨ spaceGetColor w = 8 := by
  unfold spaceGetColor
  have h1 : w &&& 8 ≤ 8 := Nat.and_le_right
  have h2 : (w &&& 8) &&& 7 = 0 := by
    rw [Nat.and_assoc, show (8 : Nat) &&& 7 = 0 from rfl, Nat.and_zero]
  exact (show ∀ x, x < 9 → x &&& 7 = 0 → x = 0 ∨ x = 8 by decide) (w &&& 8) (by omega) h2

theorem encode_promo_facts (t c : Nat) (ht : t ∈ PROMOTIONS) (hc : c = 0 ∨ c = 8) :
    encodePieceSpace t c true ≠ 0 ∧
      spaceGetColor (encodePieceSpace t c true) = c ∧
      spaceGetType (encodePieceSpace t c true) = t ∧
      spaceGetType (encodePieceSpace t c true) ≠ PIECETYPE_KING := by
  rcases hc with rfl | rfl <;>
    fin_cases ht <;> exact ⟨by decide, by decide, by decide, by decide⟩

/-- `set` with two non-empty values produces the same piece list. -/
theorem set_pieceList_same_occ (q : Position) (i sp sp' : Nat) (h1 : sp ≠ 0)
    (h2 : sp' ≠ 0) : (q.set i sp).pieceList = (q.set i sp').pieceList := by
  unfold Position.set
  dsimp only
  by_cases hp : q.board.getD i 0 = 0
  · rw [if_pos ⟨hp, h1⟩, if_pos ⟨hp, h2⟩]
  · have e1 : ¬(q.board.getD i 0 = 0 ∧ sp ≠ 0) := fun hc => hp hc.1
    have e2 : ¬(q.board.getD i 0 = 0 ∧ sp' ≠ 0) := fun hc => hp hc.1
    have e3 : ¬(q.board.getD i 0 ≠ 0 ∧ sp = 0) := fun hc => h1 hc.2
    have e4 : ¬(q.board.getD i 0 ≠ 0 ∧ sp' = 0) := fun hc => h2 hc.2
    rw [if_neg e1, if_neg e3, if_neg e2, if_neg e4]

theorem set_board_getD_ne (q : Position) (i sp : Nat) (x : Nat) (hx : x ≠ i) :
    (q.set i sp).board.getD x 0 = q.board.getD x 0 :=
  getD_set_ne _ _ _ _ (Ne.symm hx)

/-- Clearing the source square first does not change the board
`performMove` produces: the move clears it anyway. -/
theorem boardOps_clear_from (b : List Nat) (m : Move) :
    boardOps (b.set m.from_ 0) m = boardOps b m := by
  unfold boardOps
  dsimp only
  have hkey : ((b.set m.from_ 0).set m.captureCoord 0).set m.from_ 0 =
      (b.set m.captureCoord 0).set m.from_ 0 := by
    by_cases hcf : m.captureCoord = m.from_
    · rw [hcf]
      simp only [List.set_set]
    · rw [List.set_comm 0 0 b (fun hc => hcf hc.symm)]
      simp only [List.set_set]
  by_cases hc : m.capture ≠ 0
  · rw [if_pos hc, if_pos hc, hkey]
  · rw [if_neg hc, if_neg hc, List.set_set]

theorem kingInDanger_proj (q q' : Position) (c : Nat) (hb : q.board = q'.board)
    (hp : q.pieceList = q'.pieceList) : kingInDanger q c = kingInDanger q' c := by
  unfold kingInDanger Position.get attackMapIsAttacked
  rw [hb, hp]

theorem set_board_length (p : Position) (i sp : Nat) :
    (p.set i sp).board.length = p.board.length := by
  rw [set_board_proj]
  simp

/-- Replacing the (non-empty, non-king, own-colored) piece on square
`j` by another such piece does not change whether the mover's king is
in danger. -/
theorem kingInDanger_set_nonking (q : Position) (j c v w : Nat)
    (hj : j < q.board.length) (hv : v ≠ 0) (hw : w ≠ 0)
    (hcv : spaceGetColor v = c) (hcw : spaceGetColor w = c)
    (htv : spaceGetType v ≠ PIECETYPE_KING) (htw : spaceGetType w ≠ PIECETYPE_KING)
    (hcc : c = 0 ∨ c = 8) :
    kingInDanger (q.set j v) c = kingInDanger (q.set j w) c := by
  have hgv : (q.set j v).board.getD j 0 = v := by
    rw [set_board_proj]
    exact getD_set_self _ _ _ hj
  have hgw : (q.set j w).board.getD j 0 = w := by
    rw [set_board_proj]
    exact getD_set_self _ _ _ hj
  apply kingInDanger_congr_single _ _ c j
  · exact set_pieceList_same_occ q j v w hv hw
  · intro x
    by_cases hx : x = j
    · subst hx
      rw [hgv, hgw]
      constructor
      · intro h
        exact absurd h hv
      · intro h
        exact absurd h hw
    · rw [set_board_getD_ne _ _ _ _ hx, set_board_getD_ne _ _ _ _ hx]
  · intro x hx
    rw [set_board_getD_ne _ _ _ _ hx, set_board_getD_ne _ _ _ _ hx]
  · rw [hgv, hgw, hcv, hcw]
  · rw [hgv, hgw]
    exact ⟨htv, htw⟩
  · rw [hgv, hgw, hcv, hcw]
    rcases hcc with rfl | rfl <;> exact ⟨by decide, by decide⟩

/-- Each promotion variant leaves the mover's king exactly as safe as
the queen-promotion trial `_tryPushMove` actually checked: the two
boards differ only in which (own-colored, non-king) piece stands on
the target square. -/
theorem kingInDanger_performMove_promote (q : Position) (mv : Move) (t : Nat)
    (ht : t ∈ PROMOTIONS) (hq : mv.promote = PIECETYPE_QUEEN)
    (hto : mv.to_ < q.board.length) :
    kingInDanger (performMove q (moveToPromotion mv t)) (spaceGetColor mv.what) =
      kingInDanger (performMove q mv) (spaceGetColor mv.what) := by
  have hcc := spaceGetColor_cases mv.what
  have htne : t ≠ 0 := by fin_cases ht <;> decide
  have hqne : mv.promote ≠ 0 := by rw [hq]; decide
  rw [kingInDanger_proj _ _ (spaceGetColor mv.what)
    (performMove_posOps q (moveToPromotion mv t)).1
    (performMove_posOps q (moveToPromotion mv t)).2]
  rw [kingInDanger_proj _ _ (spaceGetColor mv.what)
    (performMove_posOps q mv).1 (performMove_posOps q mv).2]
  unfold posOps
  dsimp only [moveToPromotion]
  rw [if_pos htne, if_pos hqne, hq]
  obtain ⟨h1, h2, h3, h4⟩ := encode_promo_facts t (spaceGetColor mv.what) ht hcc
  obtain ⟨g1, g2, g3, g4⟩ :=
    encode_promo_facts PIECETYPE_QUEEN (spaceGetColor mv.what) (by decide) hcc
  refine kingInDanger_set_nonking _ mv.to_ (spaceGetColor mv.what) _ _ ?_
    h1 g1 h2 g2 h4 g4 hcc
  have hstep : ∀ r : Position, r.board.length = q.board.length →
      mv.to_ < r.board.length := fun r hr => hr ▸ hto
  apply hstep
  split_ifs <;> simp only [set_board_length]

/-- The safety contract of every move the generator emits while
expanding the piece on `idx` of the (source-cleared) position `q`. -/
def SafeAt (q : Position) (idx : Nat) (m : Move) : Prop :=
  m.from_ = idx ∧ MoveBounds m ∧
    kingInDanger (performMove q m) (spaceGetColor m.what) = false

/-- `_tryPushMove` only ever appends moves (or their promotion
variants) that pass the king-danger trial. -/
theorem tryPushMove_emitted (q : Position) (idx : Nat) (out : List Move) (mv : Move)
    (hq : mv.promote = 0 ∨ mv.promote = PIECETYPE_QUEEN)
    (hfrom : mv.from_ = idx) (hmb : MoveBounds mv)
    (hto : mv.to_ < q.board.length) :
    ∀ m ∈ tryPushMove q out mv, m ∈ out ∨ SafeAt q idx m := by
  intro m hm
  unfold tryPushMove at hm
  dsimp only at hm
  by_cases hk : kingInDanger (performMove q mv) (spaceGetColor mv.what) = true
  · rw [if_pos hk] at hm
    exact Or.inl hm
  · rw [if_neg hk] at hm
    have hkf : kingInDanger (performMove q mv) (spaceGetColor mv.what) = false :=
      Bool.of_not_eq_true hk
    by_cases hp : mv.promote ≠ 0
    · rw [if_pos hp] at hm
      rcases List.mem_append.mp hm with h | h
      · exact Or.inl h
      · obtain ⟨t, htp, rfl⟩ := List.mem_map.mp h
        have hq' : mv.promote = PIECETYPE_QUEEN := by
          rcases hq with h0 | h1
          · exact absurd h0 hp
          · exact h1
        refine Or.inr ⟨hfrom, hmb, ?_⟩
        exact (kingInDanger_performMove_promote q mv t htp hq' hto).trans hkf
    · rw [if_neg hp] at hm
      rcases List.mem_append.mp hm with h | h
      · exact Or.inl h
      · rw [List.mem_singleton] at h
        subst h
        exact Or.inr ⟨hfrom, hmb, hkf⟩

theorem offBoard_false (i : Int) (h : ¬ offBoardI i = true) :
    0 ≤ i ∧ i.toNat &&& 0x88 = 0 := by
  unfold offBoardI at h
  simp only [Bool.or_eq_true, decide_eq_true_eq, ne_eq, not_or, Decidable.not_not] at h
  exact ⟨le_of_not_lt h.1, h.2⟩

/-- Generic fold invariant: anything in the fold's output was in the
accumulator or satisfies the per-step emission contract. -/
theorem foldl_mem_or {α : Type} (Q : Move → Prop) (f : List Move → α → List Move)
    (l : List α)
    (hf : ∀ acc a, a ∈ l → ∀ m, m ∈ f acc a → m ∈ acc ∨ Q m) :
    ∀ (acc : List Move) (m : Move), m ∈ l.foldl f acc → m ∈ acc ∨ Q m := by
  induction l with
  | nil =>
    intro acc m hm
    exact Or.inl hm
  | cons a rest ih =>
    intro acc m hm
    have hrec := ih (fun acc' a' ha' m' hm' =>
      hf acc' a' (List.mem_cons_of_mem a ha') m' hm') (f acc a) m hm
    rcases hrec with h | h
    · exact hf acc a (List.mem_cons_self a rest) m h
    · exact Or.inr h

theorem getD_le_33 (dirs : List Int) (h : ∀ x ∈ dirs, x ≤ 33) (d : Nat) :
    dirs.getD d 0 ≤ 33 := by
  by_cases hd : d < dirs.length
  · rw [List.getD_eq_getElem _ _ hd]
    exact h _ (List.getElem_mem hd)
  · rw [List.getD_eq_default _ _ (le_of_not_lt hd)]
    decide

set_option maxRecDepth 10000 in
/-- Every move the slider/step ray loop emits beyond its accumulator
satisfies the safety contract: it comes from `idx`, is in bounds, and
passed the king-danger trial. -/
theorem findMovesLoop_emitted (q : Position) (idx sp : Nat) (step : Int)
    (hidx : OnBoard idx) (hsb : step ≤ 33) (hbl : q.board.length = 128)
    (prior : PriorState) :
    ∀ (fuel : Nat) (newIdx : Int), newIdx < 256 → ∀ (out : List Move) (m : Move),
      m ∈ findMovesLoop q sp idx step prior newIdx fuel out →
      m ∈ out ∨ SafeAt q idx m := by
  intro fuel
  induction fuel with
  | zero =>
    intro newIdx hni out m hm
    exact Or.inl hm
  | succ n ih =>
    intro newIdx hni out m hm
    unfold findMovesLoop at hm
    by_cases hoff : offBoardI newIdx = true
    · rw [if_pos hoff] at hm
      exact Or.inl hm
    · rw [if_neg hoff] at hm
      obtain ⟨hge, h88⟩ := offBoard_false newIdx hoff
      have h256 : newIdx.toNat < 256 := by omega
      have hlt : newIdx.toNat < 128 :=
        (show ∀ x, x < 256 → x &&& 0x88 = 0 → x < 128 by decide) _ h256 h88
      dsimp only at hm
      by_cases hsp0 : q.get newIdx.toNat = 0
      · rw [if_pos hsp0] at hm
        have hrec := ih (newIdx + step) (by omega) _ m hm
        rcases hrec with h | h
        · refine tryPushMove_emitted q idx out (createSimpleMove sp idx newIdx.toNat prior)
            (Or.inl rfl) rfl ⟨hidx, ⟨hlt, h88⟩, fun hc => absurd rfl hc,
              fun hc => absurd rfl hc⟩ ?_ m h
          show newIdx.toNat < q.board.length
          omega
        · exact Or.inr h
      · rw [if_neg hsp0] at hm
        by_cases hcap : spaceGetColor (q.get newIdx.toNat) = 8 - spaceGetColor sp
        · rw [if_pos hcap] at hm
          refine tryPushMove_emitted q idx out
            (createSimpleCapture sp idx newIdx.toNat (q.get newIdx.toNat) newIdx.toNat prior)
            (Or.inl rfl) rfl ⟨hidx, ⟨hlt, h88⟩, fun _ => ⟨hlt, h88⟩,
              fun hc => absurd rfl hc⟩ ?_ m hm
          show newIdx.toNat < q.board.length
          omega
        · rw [if_neg hcap] at hm
          exact Or.inl hm

/-- Every move `_findMoves` emits beyond its accumulator satisfies the
safety contract. -/
theorem findMoves_emitted (q : Position) (idx sp : Nat) (dirs : List Int)
    (hd : dirs = DIRS ∨ dirs = KNIGHT_DIRS) (lo hi maxDist : Nat)
    (hidx : OnBoard idx) (hbl : q.board.length = 128) (prior : PriorState)
    (out : List Move) (m : Move)
    (hm : m ∈ findMoves q sp idx dirs lo hi maxDist out prior) :
    m ∈ out ∨ SafeAt q idx m := by
  have h33 : ∀ x ∈ dirs, x ≤ 33 := by
    rcases hd with rfl | rfl <;> decide
  unfold findMoves at hm
  refine foldl_mem_or (SafeAt q idx) _ _ ?_ out m hm
  intro acc dirIdx _ m' hm'
  exact findMovesLoop_emitted q idx sp (dirs.getD dirIdx 0) hidx
    (getD_le_33 dirs h33 dirIdx) hbl prior maxDist ((idx : Int) + dirs.getD dirIdx 0)
    (by have := hidx.1; have := getD_le_33 dirs h33 dirIdx; omega) acc m' hm'

set_option maxRecDepth 10000 in
theorem bound128 (x : Nat) (h256 : x < 256) (h88 : x &&& 0x88 = 0) : x < 128 :=
  (show ∀ y, y < 256 → y &&& 0x88 = 0 → y < 128 by decide) x h256 h88

/-- `_pawnMoves` with the color-dependent direction abstracted (proof
helper): `pawnMoves` is this at `dir = ±1`. -/
def pawnMovesD (p : Position) (sp idx : Nat) (dir : Int) (out : List Move)
    (prior : PriorState) : List Move :=
  let color := spaceGetColor sp
  let enemy := 8 - color
  let oneUp : Int := (idx : Int) + 16 * dir
  let twoUp : Int := (idx : Int) + 32 * dir
  if offBoardI oneUp then out
  else
    let oneUpN := oneUp.toNat
    let promote := if offBoardI twoUp then PIECETYPE_QUEEN else 0
    let out1 :=
      if p.get oneUpN = 0 then
        let outA := tryPushMove p out (createFullMove sp idx oneUpN 0 0 0 0 0 promote 0 prior)
        if ¬ spaceHasMoved sp ∧ ¬ offBoardI twoUp ∧ p.get twoUp.toNat = 0 then
          tryPushMove p outA (createFullMove sp idx twoUp.toNat 0 0 0 0 0 0 oneUpN prior)
        else outA
      else out
    PAWN_CAPS.foldl
      (fun acc step =>
        let coord := oneUp + step
        if offBoardI coord then acc
        else
          let coordN := coord.toNat
          let spot := p.get coordN
          if coordN = p.ep then
            let epCoord := ((idx : Int) + step).toNat
            let epSpot := p.get epCoord
            tryPushMove p acc (createFullMove sp idx coordN epSpot epCoord 0 0 0 promote 0 prior)
          else if spot ≠ 0 ∧ spaceGetColor spot = enemy then
            tryPushMove p acc (createFullMove sp idx coordN spot coordN 0 0 0 promote 0 prior)
          else acc)
      out1

theorem pawnMoves_eq (p : Position) (sp idx : Nat) (out : List Move)
    (prior : PriorState) :
    pawnMoves p sp idx out prior =
      pawnMovesD p sp idx (if spaceGetColor sp = COLOR_WHITE then 1 else -1) out prior := rfl

/-- Every move `_pawnMoves` emits beyond its accumulator satisfies the
safety contract. -/
theorem pawnMovesD_emitted (q : Position) (idx sp : Nat) (dir : Int)
    (hok : PieceListOk q) (hidx : OnBoard idx) (hdir : -1 ≤ dir ∧ dir ≤ 1)
    (prior : PriorState) (out : List Move) (m : Move)
    (hm : m ∈ pawnMovesD q sp idx dir out prior) : m ∈ out ∨ SafeAt q idx m := by
  have hbl : q.board.length = 128 := hok.1
  have hi128 := hidx.1
  unfold pawnMovesD at hm
  dsimp only at hm
  by_cases hoff1 : offBoardI ((idx : Int) + 16 * dir) = true
  · rw [if_pos hoff1] at hm
    exact Or.inl hm
  · rw [if_neg hoff1] at hm
    obtain ⟨hge1, h881⟩ := offBoard_false _ hoff1
    have h2561 : ((idx : Int) + 16 * dir).toNat < 256 := by omega
    have hlt1 : ((idx : Int) + 16 * dir).toNat < 128 := bound128 _ h2561 h881
    have hprom : (if offBoardI ((idx : Int) + 32 * dir) = true then PIECETYPE_QUEEN else 0) = 0 ∨
        (if offBoardI ((idx : Int) + 32 * dir) = true then PIECETYPE_QUEEN else 0) =
          PIECETYPE_QUEEN := by
      split_ifs
      · exact Or.inr rfl
      · exact Or.inl rfl
    refine (foldl_mem_or (SafeAt q idx) _ PAWN_CAPS ?_ _ m hm).elim ?_ Or.inr
    · intro acc step hstepmem m' hm'
      have hstepb : -1 ≤ step ∧ step ≤ 1 := by
        have h2 := hstepmem
        simp only [PAWN_CAPS, List.mem_cons, List.mem_singleton, List.not_mem_nil,
          or_false] at h2
        rcases h2 with rfl | rfl <;> exact ⟨by decide, by decide⟩
      by_cases hoffc : offBoardI ((idx : Int) + 16 * dir + step) = true
      · rw [if_pos hoffc] at hm'
        exact Or.inl hm'
      · rw [if_neg hoffc] at hm'
        obtain ⟨hgec, h88c⟩ := offBoard_false _ hoffc
        have h256c : ((idx : Int) + 16 * dir + step).toNat < 256 := by omega
        have hltc : ((idx : Int) + 16 * dir + step).toNat < 128 := bound128 _ h256c h88c
        by_cases hep : ((idx : Int) + 16 * dir + step).toNat = q.ep
        · rw [if_pos hep] at hm'
          refine tryPushMove_emitted q idx acc _ hprom rfl ?_ ?_ m' hm'
          · refine ⟨hidx, ⟨hltc, h88c⟩, ?_, fun hc => absurd rfl hc⟩
            intro hcap
            have hcap' : q.get (((idx : Int) + step).toNat) ≠ 0 := hcap
            have hlt : ((idx : Int) + step).toNat < 128 := by
              by_contra hge
              exact hcap' (by
                unfold Position.get
                exact getD_eq_zero_of_ge _ _ (by omega))
            exact hok.2.2.1 _ ((hok.2.2.2 _ hlt).mp hcap')
          · show ((idx : Int) + 16 * dir + step).toNat < q.board.length
            omega
        · rw [if_neg hep] at hm'
          by_cases hcapb : q.get ((idx : Int) + 16 * dir + step).toNat ≠ 0 ∧
              spaceGetColor (q.get ((idx : Int) + 16 * dir + step).toNat) =
                8 - spaceGetColor sp
          · rw [if_pos hcapb] at hm'
            refine tryPushMove_emitted q idx acc _ hprom rfl
              ⟨hidx, ⟨hltc, h88c⟩, fun _ => ⟨hltc, h88c⟩, fun hc => absurd rfl hc⟩
              ?_ m' hm'
            show ((idx : Int) + 16 * dir + step).toNat < q.board.length
            omega
          · rw [if_neg hcapb] at hm'
            exact Or.inl hm'
    · intro hmem
      by_cases hone : q.get ((idx : Int) + 16 * dir).toNat = 0
      · rw [if_pos hone] at hmem
        by_cases hdbl : ¬ spaceHasMoved sp ∧ ¬ offBoardI ((idx : Int) + 32 * dir) = true ∧
            q.get ((idx : Int) + 32 * dir).toNat = 0
        · rw [if_pos hdbl] at hmem
          obtain ⟨hnm, hoff2, hemp2⟩ := hdbl
          obtain ⟨hge2, h882⟩ := offBoard_false _ hoff2
          have h2562 : ((idx : Int) + 32 * dir).toNat < 256 := by omega
          have hlt2 : ((idx : Int) + 32 * dir).toNat < 128 := bound128 _ h2562 h882
          rcases tryPushMove_emitted q idx _ _ (Or.inl rfl) rfl
              ⟨hidx, ⟨hlt2, h882⟩, fun hc => absurd rfl hc, fun hc => absurd rfl hc⟩
              (show ((idx : Int) + 32 * dir).toNat < q.board.length by omega)
              m hmem with hA | hS
          · exact tryPushMove_emitted q idx out _ hprom rfl
              ⟨hidx, ⟨hlt1, h881⟩, fun hc => absurd rfl hc, fun hc => absurd rfl hc⟩
              (show ((idx : Int) + 16 * dir).toNat < q.board.length by omega) m hA
          · exact Or.inr hS
        · rw [if_neg hdbl] at hmem
          exact tryPushMove_emitted q idx out _ hprom rfl
            ⟨hidx, ⟨hlt1, h881⟩, fun hc => absurd rfl hc, fun hc => absurd rfl hc⟩
            (show ((idx : Int) + 16 * dir).toNat < q.board.length by omega) m hmem
      · rw [if_neg hone] at hmem
        exact Or.inl hmem

/-- `_tryCastle` emits nothing beyond what `_tryPushMove` would: the
extra guards only restrict further. -/
theorem tryCastle_emitted (q : Position) (idx : Nat) (out : List Move) (mv : Move)
    (hq : mv.promote = 0) (hfrom : mv.from_ = idx) (hmb : MoveBounds mv)
    (hto : mv.to_ < q.board.length) (m : Move) (hm : m ∈ tryCastle q out mv) :
    m ∈ out ∨ SafeAt q idx m := by
  unfold tryCastle at hm
  dsimp only at hm
  split_ifs at hm with h1 h2
  · exact Or.inl hm
  · exact tryPushMove_emitted q idx out mv (Or.inl hq) hfrom hmb hto m hm
  · exact Or.inl hm

set_option maxRecDepth 10000 in
theorem rank_k_onboard (i : Nat) (hi : OnBoard i) (k : Nat) (hk : k < 8) :
    OnBoard ((i &&& 0xf0) ||| k) := by
  obtain ⟨h1, h2⟩ := hi
  exact (show ∀ j, j < 128 → j &&& 0x88 = 0 → ∀ l, l < 8 →
      ((j &&& 0xf0) ||| l) < 128 ∧ ((j &&& 0xf0) ||| l) &&& 0x88 = 0 by decide) i h1 h2 k hk

/-- Every move `_findKingCastles` emits beyond its accumulator
satisfies the safety contract. -/
theorem findKingCastles_emitted (q : Position) (idx sp : Nat) (hok : PieceListOk q)
    (hidx : OnBoard idx) (prior : PriorState) (out : List Move) (m : Move)
    (hm : m ∈ findKingCastles q sp idx out prior) : m ∈ out ∨ SafeAt q idx m := by
  have hbl : q.board.length = 128 := hok.1
  unfold findKingCastles at hm
  by_cases hmoved : spaceHasMoved sp = true
  · rw [if_pos hmoved] at hm
    exact Or.inl hm
  · rw [if_neg hmoved] at hm
    dsimp only at hm
    have hcb : ∀ (kto rto rfrom : Nat), kto < 8 → rto < 8 →
        MoveBounds (createCastle sp idx ((idx &&& 0xf0) ||| kto)
          (q.get ((idx &&& 0xf0) ||| rfrom)) ((idx &&& 0xf0) ||| rfrom)
          ((idx &&& 0xf0) ||| rto) prior) := by
      intro kto rto rfrom hkto hrto
      refine ⟨hidx, rank_k_onboard idx hidx kto hkto, fun hc => absurd rfl hc, ?_⟩
      intro hrk
      constructor
      · have hcap' : q.get ((idx &&& 0xf0) ||| rfrom) ≠ 0 := hrk
        have hlt : ((idx &&& 0xf0) ||| rfrom) < 128 := by
          by_contra hge
          exact hcap' (by
            unfold Position.get
            exact getD_eq_zero_of_ge _ _ (by omega))
        exact hok.2.2.1 _ ((hok.2.2.2 _ hlt).mp hcap')
      · exact rank_k_onboard idx hidx rto hrto
    have htoB : ∀ kto : Nat, kto < 8 → ((idx &&& 0xf0) ||| kto) < q.board.length := by
      intro kto hkto
      rw [hbl]
      exact (rank_k_onboard idx hidx kto hkto).1
    by_cases hqs : castleMapGetFile q.castles (spaceGetColor sp) false &&& 0x8 = 0
    · rw [if_pos hqs] at hm
      rcases tryCastle_emitted q idx _ _ rfl rfl (hcb 2 3 _ (by decide) (by decide))
          (htoB 2 (by decide)) m hm with h1 | h1
      · by_cases hks : castleMapGetFile q.castles (spaceGetColor sp) true &&& 0x8 = 0
        · rw [if_pos hks] at h1
          exact tryCastle_emitted q idx out _ rfl rfl (hcb 6 5 _ (by decide) (by decide))
            (htoB 6 (by decide)) m h1
        · rw [if_neg hks] at h1
          exact Or.inl h1
      · exact Or.inr h1
    · rw [if_neg hqs] at hm
      by_cases hks : castleMapGetFile q.castles (spaceGetColor sp) true &&& 0x8 = 0
      · rw [if_pos hks] at hm
        exact tryCastle_emitted q idx out _ rfl rfl (hcb 6 5 _ (by decide) (by decide))
          (htoB 6 (by decide)) m hm
      · rw [if_neg hks] at hm
        exact Or.inl hm

/-- Every move `listValidMoves` emits beyond its accumulator comes
from `idx`, is in bounds, and leaves the mover's king safe on the
source-cleared board the generator trial-applied it to. -/
theorem listValidMovesAt_emitted (p : Position) (idx : Nat) (hok : PieceListOk p)
    (hidx : OnBoard idx) (out : List Move) (m : Move)
    (hm : m ∈ listValidMovesAt p idx out) :
    m ∈ out ∨ SafeAt (p.set idx 0) idx m := by
  have hokc : PieceListOk (p.set idx 0) := pieceListOk_set p idx 0 hok hidx
  have hbl : (p.set idx 0).board.length = 128 := hokc.1
  unfold listValidMovesAt at hm
  dsimp only at hm
  split_ifs at hm with h1 h2 h3 h4 h5 h6
  · exact findMoves_emitted _ idx _ DIRS (Or.inl rfl) 4 8 8 hidx hbl _ out m hm
  · exact findMoves_emitted _ idx _ DIRS (Or.inl rfl) 0 4 8 hidx hbl _ out m hm
  · exact findMoves_emitted _ idx _ DIRS (Or.inl rfl) 0 8 8 hidx hbl _ out m hm
  · exact findMoves_emitted _ idx _ KNIGHT_DIRS (Or.inr rfl) 0 8 1 hidx hbl _ out m hm
  · rcases findKingCastles_emitted _ idx _ hokc hidx _ _ m hm with h | h
    · exact findMoves_emitted _ idx _ DIRS (Or.inl rfl) 0 8 1 hidx hbl _ out m h
    · exact Or.inr h
  · rw [pawnMoves_eq] at hm
    refine pawnMovesD_emitted _ idx _ _ hokc hidx ?_ _ out m hm
    constructor <;> split_ifs <;> decide
  · exact Or.inl hm

/-- C2: the legal-move generator only returns king-safe moves.  For
every position satisfying the piece-list validity invariant and
every color, applying any move the generator returns leaves the
moving side's king unattacked: the `_tryPushMove` trial filter is
effective, including for the promotion variants it expands and for
castles. -/
theorem listAllValidMoves_king_safe (p : Position) (color : Nat)
    (hok : PieceListOk p) :
    ∀ m ∈ listAllValidMovesP p color,
      kingInDanger (performMove p m) (spaceGetColor m.what) = false := by
  intro m hm
  unfold listAllValidMovesP at hm
  have hstep : ∀ (acc : List Move) (idx : Nat), idx ∈ p.pieceList → ∀ m',
      m' ∈ (if spaceGetColor (p.get idx) = color then listValidMovesAt p idx acc
        else acc) →
      m' ∈ acc ∨ ∃ idx2 ∈ p.pieceList, SafeAt (p.set idx2 0) idx2 m' := by
    intro acc idx hidxm m' hm'
    by_cases hc : spaceGetColor (p.get idx) = color
    · rw [if_pos hc] at hm'
      rcases listValidMovesAt_emitted p idx hok (hok.2.2.1 idx hidxm) acc m' hm'
        with h | h
      · exact Or.inl h
      · exact Or.inr ⟨idx, hidxm, h⟩
    · rw [if_neg hc] at hm'
      exact Or.inl hm'
  rcases foldl_mem_or (fun m' => ∃ idx2 ∈ p.pieceList, SafeAt (p.set idx2 0) idx2 m')
      (fun acc idx => if spaceGetColor (p.get idx) = color then
        listValidMovesAt p idx acc else acc)
      p.pieceList hstep [] m hm with h | h
  · exact absurd h (List.not_mem_nil m)
  · obtain ⟨idx, hidxm, hfrom, hmb, hsafe⟩ := h
    have hOn : OnBoard idx := hok.2.2.1 idx hidxm
    have heqb : (performMove p m).board = (performMove (p.set idx 0) m).board := by
      rw [performMove_board, performMove_board, set_board_proj, ← hfrom]
      exact (boardOps_clear_from p.board m).symm
    rw [kingInDanger_congr_members (performMove p m) (performMove (p.set idx 0) m)
      (spaceGetColor m.what) heqb (pieceListOk_performMove p m hok hmb)
      (pieceListOk_performMove _ m (pieceListOk_set p idx 0 hok hOn) hmb)]
    exact hsafe

set_option maxRecDepth 10000 in
theorem listAllValidMoves_king_safe_witness :
    PieceListOk kingsOnlyPos ∧
      ∀ m ∈ listAllValidMovesP kingsOnlyPos 0,
        kingInDanger (performMove kingsOnlyPos m) (spaceGetColor m.what) = false :=
  ⟨by decide, listAllValidMoves_king_safe kingsOnlyPos 0 (by decide)⟩
